import Mathlib

/-!
Verification development for the Hearthshire voxel engine core
(`Source/HearthshireVoxel`).  The C++ sources are shallowly embedded:
machine integers (`int32`) become `Int` (all quantities involved stay far
below 2^31, so wrap-around never occurs in the modelled code paths),
`TArray<T>` becomes `List T`, and `float` world coordinates become `Int`
(every position produced by the meshers is an integer multiple of the
voxel edge length, and such values are represented exactly by `float`
for the sizes in play, so integer arithmetic is exact for them).

The repository ships two translation units implementing
`FVoxelGreedyMesher::ConvertQuadsToMesh`: the one in the unnamed file
`part_003` (no vertex welding, uniform triangle winding) and the one
bundled in `VoxelBlueprintLibrary.cpp` (vertex welding keyed on the
quantized position, inverse winding for +Z quads).  Both are embedded
below, the second under the `Welded` name suffix.
-/

namespace Hearthshire

/-- `EVoxelMaterial` from VoxelTypes.h (ids 0..9; `Max = 255` is an
editor-only sentinel and never stored in a chunk). -/
inductive EVoxelMaterial : Type
  | Air
  | Grass
  | Dirt
  | Stone
  | Wood
  | Leaves
  | Sand
  | Water
  | Snow
  | Ice
deriving DecidableEq, Repr

/-- `FVoxel` from VoxelTypes.h: a one-byte material id. -/
structure FVoxel where
  Material : EVoxelMaterial
deriving DecidableEq, Repr

/-- `FVoxel::IsAir`. -/
def FVoxel.IsAir (v : FVoxel) : Bool :=
  v.Material = EVoxelMaterial.Air

/-- `FVoxel::IsSolid`. -/
def FVoxel.IsSolid (v : FVoxel) : Bool :=
  v.Material ≠ EVoxelMaterial.Air

/-- `FVoxel::IsTransparent` (water or ice). -/
def FVoxel.IsTransparent (v : FVoxel) : Bool :=
  v.Material = EVoxelMaterial.Water ∨ v.Material = EVoxelMaterial.Ice

/-- `FIntVector` (UE core type): a triple of `int32` coordinates. -/
structure FIntVector where
  X : Int
  Y : Int
  Z : Int
deriving DecidableEq, Repr

/-- `FVoxelChunkSize` from VoxelTypes.h. -/
structure FVoxelChunkSize where
  X : Int
  Y : Int
  Z : Int
deriving DecidableEq, Repr

/-- `FVoxelChunkSize::GetVoxelCount`. -/
def FVoxelChunkSize.GetVoxelCount (s : FVoxelChunkSize) : Int :=
  s.X * s.Y * s.Z

/-- `FVoxelChunkSize::ToIntVector`. -/
def FVoxelChunkSize.ToIntVector (s : FVoxelChunkSize) : FIntVector :=
  ⟨s.X, s.Y, s.Z⟩

/-- Component access mirroring UE `FIntVector::operator[]`. -/
def FIntVector.nth (p : FIntVector) : Nat → Int
  | 0 => p.X
  | 1 => p.Y
  | _ => p.Z

/-- The voxel holding `Air`, the value `FVoxel()` default-constructs. -/
def airVoxel : FVoxel := ⟨EVoxelMaterial.Air⟩

/-- `FVoxelChunkData` from VoxelTypes.h.  The `TArray<FVoxel>` is a
`List`; `GenerationTime` is timing telemetry and is not modelled. -/
structure FVoxelChunkData where
  Voxels : List FVoxel
  ChunkSize : FVoxelChunkSize
  ChunkPosition : FIntVector
  bIsDirty : Bool
deriving DecidableEq, Repr

namespace FVoxelChunkData

/-- In-range test used by `GetVoxel`/`SetVoxel` (VoxelTypes.h:142,154). -/
def InRange (c : FVoxelChunkData) (X Y Z : Int) : Prop :=
  0 ≤ X ∧ X < c.ChunkSize.X ∧ 0 ≤ Y ∧ Y < c.ChunkSize.Y ∧ 0 ≤ Z ∧ Z < c.ChunkSize.Z

instance (c : FVoxelChunkData) (X Y Z : Int) : Decidable (c.InRange X Y Z) := by
  unfold InRange; infer_instance

/-- `FVoxelChunkData::GetIndex` (VoxelTypes.h:163). -/
def GetIndex (c : FVoxelChunkData) (X Y Z : Int) : Int :=
  X + Y * c.ChunkSize.X + Z * c.ChunkSize.X * c.ChunkSize.Y

/-- `FVoxelChunkData::GetVoxel` (VoxelTypes.h:140-149): out-of-range
reads return `Air` before any array access; in range, `Voxels[Index]`.
The C++ indexing assertion is modelled by `getD` with the `Air`
default; `getVoxel_index_lt_length` below shows the in-range index is
inside the array whenever the array has its invariant length. -/
def GetVoxel (c : FVoxelChunkData) (X Y Z : Int) : FVoxel :=
  if c.InRange X Y Z then
    c.Voxels.getD (c.GetIndex X Y Z).toNat airVoxel
  else
    airVoxel

/-- `FVoxelChunkData::SetVoxel` (VoxelTypes.h:152-160): in-range writes
store the voxel and unconditionally set `bIsDirty = true`; out-of-range
writes do nothing. -/
def SetVoxel (c : FVoxelChunkData) (X Y Z : Int) (v : FVoxel) : FVoxelChunkData :=
  if c.InRange X Y Z then
    { c with
      Voxels := c.Voxels.set (c.GetIndex X Y Z).toNat v
      bIsDirty := true }
  else
    c

/-- `FVoxelChunkData::Clear` (VoxelTypes.h:169-176). -/
def Clear (c : FVoxelChunkData) : FVoxelChunkData :=
  { c with Voxels := c.Voxels.map (fun _ => airVoxel), bIsDirty := true }

end FVoxelChunkData

section ChunkStore

open FVoxelChunkData

theorem getIndex_nonneg (c : FVoxelChunkData) (X Y Z : Int)
    (h : c.InRange X Y Z) : 0 ≤ c.GetIndex X Y Z := by
  obtain ⟨hx0, hx1, hy0, hy1, hz0, hz1⟩ := h
  have hsx : 0 ≤ c.ChunkSize.X := le_trans hx0 (le_of_lt hx1)
  have hsy : 0 ≤ c.ChunkSize.Y := le_trans hy0 (le_of_lt hy1)
  have h1 : 0 ≤ Y * c.ChunkSize.X := mul_nonneg hy0 hsx
  have h2 : 0 ≤ Z * c.ChunkSize.X * c.ChunkSize.Y :=
    mul_nonneg (mul_nonneg hz0 hsx) hsy
  unfold FVoxelChunkData.GetIndex
  linarith

theorem getIndex_lt_count (c : FVoxelChunkData) (X Y Z : Int)
    (h : c.InRange X Y Z) :
    c.GetIndex X Y Z < c.ChunkSize.GetVoxelCount := by
  obtain ⟨hx0, hx1, hy0, hy1, hz0, hz1⟩ := h
  have hsx : 0 < c.ChunkSize.X := lt_of_le_of_lt hx0 hx1
  have hsy : 0 < c.ChunkSize.Y := lt_of_le_of_lt hy0 hy1
  unfold FVoxelChunkData.GetIndex FVoxelChunkSize.GetVoxelCount
  have hY : Y * c.ChunkSize.X ≤ (c.ChunkSize.Y - 1) * c.ChunkSize.X := by
    have : Y ≤ c.ChunkSize.Y - 1 := by omega
    exact mul_le_mul_of_nonneg_right this (le_of_lt hsx)
  have hZ : Z * c.ChunkSize.X * c.ChunkSize.Y ≤
      (c.ChunkSize.Z - 1) * c.ChunkSize.X * c.ChunkSize.Y := by
    have hz : Z ≤ c.ChunkSize.Z - 1 := by omega
    have := mul_le_mul_of_nonneg_right
      (mul_le_mul_of_nonneg_right hz (le_of_lt hsx)) (le_of_lt hsy)
    exact this
  nlinarith

/-- With the length invariant (`voxels.len == N`, spec §3 invariant 2),
the in-range branch of `GetVoxel` indexes inside the array: the C++
`Voxels[Index]` access cannot fault. -/
theorem getVoxel_index_lt_length (c : FVoxelChunkData) (X Y Z : Int)
    (hlen : (c.Voxels.length : Int) = c.ChunkSize.GetVoxelCount)
    (h : c.InRange X Y Z) :
    (c.GetIndex X Y Z).toNat < c.Voxels.length := by
  have h1 := getIndex_nonneg c X Y Z h
  have h2 := getIndex_lt_count c X Y Z h
  omega

/-- Out-of-range reads return `Air` (shared helper form). -/
theorem getVoxel_oob (c : FVoxelChunkData) (X Y Z : Int)
    (h : ¬ c.InRange X Y Z) :
    c.GetVoxel X Y Z = airVoxel := by
  unfold FVoxelChunkData.GetVoxel
  simp [h]

/-- C5: Neighbour-safe reads: for every chunk and every integer
coordinate outside `[0,X) × [0,Y) × [0,Z)`, `FVoxelChunkData::GetVoxel`
returns `Air`, and the out-of-range branch is taken before any array
access (see `getVoxel_index_lt_length` for the in-range access bound). -/
theorem getVoxel_out_of_range (c : FVoxelChunkData) (X Y Z : Int)
    (h : ¬ c.InRange X Y Z) :
    c.GetVoxel X Y Z = airVoxel :=
  getVoxel_oob c X Y Z h

/-- Witness for C5 at a concrete out-of-range input: reading `(-1,0,40)`
from a default-sized 32³ chunk yields `Air`. -/
theorem getVoxel_out_of_range_witness :
    (⟨List.replicate 32768 ⟨EVoxelMaterial.Stone⟩, ⟨32, 32, 32⟩, ⟨0, 0, 0⟩,
        false⟩ : FVoxelChunkData).GetVoxel (-1) 0 40 = airVoxel :=
  getVoxel_out_of_range _ (-1) 0 40 (by decide)

/-- `SetVoxel` leaves the chunk dimensions unchanged. -/
theorem setVoxel_chunkSize (c : FVoxelChunkData) (X Y Z : Int) (v : FVoxel) :
    (c.SetVoxel X Y Z v).ChunkSize = c.ChunkSize := by
  unfold FVoxelChunkData.SetVoxel
  split <;> rfl

/-- C4 (amended): for every in-range coordinate, after `SetVoxel` the
subsequent `GetVoxel` at the same coordinate returns the written voxel,
and `bIsDirty` is `true` after every in-range write — unconditionally,
whether or not the written material differs from the stored one. -/
theorem setVoxel_roundtrip_and_dirty (c : FVoxelChunkData) (X Y Z : Int)
    (v : FVoxel)
    (hlen : (c.Voxels.length : Int) = c.ChunkSize.GetVoxelCount)
    (h : c.InRange X Y Z) :
    (c.SetVoxel X Y Z v).GetVoxel X Y Z = v ∧
      (c.SetVoxel X Y Z v).bIsDirty = true := by
  have hidx : (c.GetIndex X Y Z).toNat < c.Voxels.length :=
    getVoxel_index_lt_length c X Y Z hlen h
  constructor
  · unfold FVoxelChunkData.GetVoxel FVoxelChunkData.SetVoxel
    have hIR : (if h : c.InRange X Y Z then True else False) := by simp [h]
    simp only [if_pos h]
    have hrange :
        ({ c with
            Voxels := c.Voxels.set (c.GetIndex X Y Z).toNat v,
            bIsDirty := true } : FVoxelChunkData).InRange X Y Z := h
    simp only [if_pos hrange]
    have hset : ∀ (l : List FVoxel) (n : Nat) (a d : FVoxel), n < l.length →
        (l.set n a).getD n d = a := by
      intro l n a d hn
      rw [List.getD_eq_getElem?_getD, List.getElem?_set_self (by simpa using hn)]
      rfl
    exact hset _ _ _ _ hidx
  · unfold FVoxelChunkData.SetVoxel
    simp [h]

/-- Witness for C4's amended theorem at a concrete input: writing
`Grass` at `(0,0,0)` of a 1×1×1 chunk and reading it back. -/
theorem setVoxel_roundtrip_witness :
    ((⟨[⟨EVoxelMaterial.Stone⟩], ⟨1, 1, 1⟩, ⟨0, 0, 0⟩, false⟩ :
        FVoxelChunkData).SetVoxel 0 0 0 ⟨EVoxelMaterial.Grass⟩).GetVoxel 0 0 0 =
        ⟨EVoxelMaterial.Grass⟩ ∧
      ((⟨[⟨EVoxelMaterial.Stone⟩], ⟨1, 1, 1⟩, ⟨0, 0, 0⟩, false⟩ :
        FVoxelChunkData).SetVoxel 0 0 0 ⟨EVoxelMaterial.Grass⟩).bIsDirty = true :=
  setVoxel_roundtrip_and_dirty _ 0 0 0 _ (by decide) (by decide)

/-- Counterexample to C4 as stated: a clean (`bIsDirty = false`) 1×1×1
chunk already holding `Stone` has its dirty flag flipped to `true` by
writing `Stone` again at `(0,0,0)` — the write of an identical material
does not leave the dirty flag unchanged. -/
theorem setVoxel_same_material_dirty_counterexample :
    ((⟨[⟨EVoxelMaterial.Stone⟩], ⟨1, 1, 1⟩, ⟨0, 0, 0⟩, false⟩ :
        FVoxelChunkData).GetVoxel 0 0 0 = ⟨EVoxelMaterial.Stone⟩) ∧
      (⟨[⟨EVoxelMaterial.Stone⟩], ⟨1, 1, 1⟩, ⟨0, 0, 0⟩, false⟩ :
        FVoxelChunkData).bIsDirty = false ∧
      ((⟨[⟨EVoxelMaterial.Stone⟩], ⟨1, 1, 1⟩, ⟨0, 0, 0⟩, false⟩ :
        FVoxelChunkData).SetVoxel 0 0 0
          ⟨EVoxelMaterial.Stone⟩).bIsDirty = true := by
  refine ⟨?_, rfl, ?_⟩ <;> decide

end ChunkStore

/-- `EVoxelFace` from VoxelTypes.h; the constructor order matches the
numeric ids `Front = 0 .. Bottom = 5`. -/
inductive EVoxelFace : Type
  | Front
  | Back
  | Right
  | Left
  | Top
  | Bottom
deriving DecidableEq, Repr

/-- The face iteration order `FaceIndex = 0..5` used by both meshers. -/
def allFaces : List EVoxelFace :=
  [.Front, .Back, .Right, .Left, .Top, .Bottom]

/-- `GetFaceDirection` (identical switches appear in
VoxelMeshGenerator.cpp and in both greedy-mesher translation units). -/
def GetFaceDirection : EVoxelFace → FIntVector
  | .Front => ⟨0, 1, 0⟩
  | .Back => ⟨0, -1, 0⟩
  | .Right => ⟨1, 0, 0⟩
  | .Left => ⟨-1, 0, 0⟩
  | .Top => ⟨0, 0, 1⟩
  | .Bottom => ⟨0, 0, -1⟩

/-- `FVoxelMeshGenerator::GetFaceNormal`: the outward unit normal, which
for axis-aligned faces has the same integer components as the face
direction. -/
def GetFaceNormal : EVoxelFace → FIntVector
  | .Front => ⟨0, 1, 0⟩
  | .Back => ⟨0, -1, 0⟩
  | .Right => ⟨1, 0, 0⟩
  | .Left => ⟨-1, 0, 0⟩
  | .Top => ⟨0, 0, 1⟩
  | .Bottom => ⟨0, 0, -1⟩

namespace FVoxelGreedyMesher

/-- `FVoxelGreedyMesher::FFaceMask` (VoxelGreedyMesher.h). -/
structure FFaceMask where
  Material : EVoxelMaterial
  bVisible : Bool
deriving DecidableEq, Repr

/-- `FVoxelGreedyMesher::FGreedyQuad` (VoxelGreedyMesher.h): base
position in voxel coordinates, size on the face plane (`Size.X` is the
u-extent, `Size.Y` the v-extent, `Size.Z` is the unused `1`), face and
material. -/
structure FGreedyQuad where
  Position : FIntVector
  Size : FIntVector
  Face : EVoxelFace
  Material : EVoxelMaterial
deriving DecidableEq, Repr

/-- `FVoxelGreedyMesher::GetNeighborVoxel`. -/
def GetNeighborVoxel (c : FVoxelChunkData) (X Y Z : Int) (f : EVoxelFace) : FVoxel :=
  let o := GetFaceDirection f
  c.GetVoxel (X + o.X) (Y + o.Y) (Z + o.Z)

/-- `FVoxelGreedyMesher::IsFaceVisible` (part_003:262-278): a face of a
solid voxel is visible iff its neighbour is air, or transparent with a
different material. -/
def IsFaceVisible (c : FVoxelChunkData) (X Y Z : Int) (f : EVoxelFace) : Bool :=
  let cur := c.GetVoxel X Y Z
  if cur.IsAir then false
  else
    let n := GetNeighborVoxel c X Y Z f
    n.IsAir || (n.IsTransparent && cur.Material ≠ n.Material)

/-- `FVoxelGreedyMesher::GetFaceAxes` as `(PrimaryAxis, UAxis, VAxis)`. -/
def GetFaceAxes : EVoxelFace → Nat × Nat × Nat
  | .Front | .Back => (1, 0, 2)
  | .Right | .Left => (0, 1, 2)
  | .Top | .Bottom => (2, 0, 1)

def primaryAxis (f : EVoxelFace) : Nat := (GetFaceAxes f).1

def uAxis (f : EVoxelFace) : Nat := (GetFaceAxes f).2.1

def vAxis (f : EVoxelFace) : Nat := (GetFaceAxes f).2.2

/-- `FVoxelGreedyMesher::MaskToVoxelPosition`. -/
def MaskToVoxelPosition (U V SliceIndex : Int) (f : EVoxelFace) : FIntVector :=
  match f with
  | .Front | .Back => ⟨U, SliceIndex, V⟩
  | .Right | .Left => ⟨SliceIndex, U, V⟩
  | .Top | .Bottom => ⟨U, V, SliceIndex⟩

/-- The mask dimensions of `CreateFaceMask`:
`OutMaskDimensions.X = ChunkSize[UAxis]`. -/
def dimU (c : FVoxelChunkData) (f : EVoxelFace) : Nat :=
  (c.ChunkSize.ToIntVector.nth (uAxis f)).toNat

/-- `OutMaskDimensions.Y = ChunkSize[VAxis]`. -/
def dimV (c : FVoxelChunkData) (f : EVoxelFace) : Nat :=
  (c.ChunkSize.ToIntVector.nth (vAxis f)).toNat

/-- `FVoxelGreedyMesher::CreateFaceMask` (part_003:51-91).  The
`TArray<FFaceMask>` indexed by `GetMaskIndex(U,V) = U + V * DimX` is
modelled as a total function of `(U, V)`: the source writes every index
exactly once, so the final array contents are this function. -/
def CreateFaceMask (c : FVoxelChunkData) (f : EVoxelFace) (s : Int) :
    Nat → Nat → FFaceMask := fun U V =>
  let p := MaskToVoxelPosition (U : Int) (V : Int) s f
  let cur := c.GetVoxel p.X p.Y p.Z
  if cur.IsAir then ⟨EVoxelMaterial.Air, false⟩
  else ⟨cur.Material, IsFaceVisible c p.X p.Y p.Z f⟩

/-- The `while`-loop pattern of `ExtendQuad`: starting from `cur`,
increment while below `hi` and the predicate holds; return the final
counter. -/
def whileInc (p : Nat → Bool) (cur hi : Nat) : Nat :=
  if h : cur < hi ∧ p cur then whileInc p (cur + 1) hi else cur
termination_by hi - cur
decreasing_by omega

/-- The cell test of `ExtendQuad`:
`TestMask.bVisible && TestMask.Material == Material`. -/
def cellOk (mask : Nat → Nat → FFaceMask) (m : EVoxelMaterial) (u v : Nat) : Bool :=
  (mask u v).bVisible && ((mask u v).Material = m)

/-- `FVoxelGreedyMesher::ExtendQuad` (part_003:132-184): extend along
`+u` on the start row, then extend whole rows along `+v`; returns
`(QuadSize.X, QuadSize.Y)`. -/
def ExtendQuad (mask : Nat → Nat → FFaceMask) (dX dY : Nat)
    (startU startV : Nat) (m : EVoxelMaterial) : Nat × Nat :=
  let maxU := whileInc (fun u => cellOk mask m u startV) (startU + 1) dX
  let w := maxU - startU
  let rowOk : Nat → Bool := fun v =>
    (List.range w).all fun i => cellOk mask m (startU + i) v
  let maxV := whileInc rowOk (startV + 1) dY
  (w, maxV - startV)

/-- `FVoxelGreedyMesher::MarkQuadProcessed` (part_003:186-200): clear
`bVisible` on every cell of the rectangle. -/
def MarkQuadProcessed (mask : Nat → Nat → FFaceMask) (startU startV w h : Nat) :
    Nat → Nat → FFaceMask := fun u v =>
  if startU ≤ u ∧ u < startU + w ∧ startV ≤ v ∧ v < startV + h then
    { mask u v with bVisible := false }
  else
    mask u v

/-- The row-major scan order of `ExtractQuadsFromMask` (`V` outer, `U`
inner). -/
def scanCells (dX dY : Nat) : List (Nat × Nat) :=
  (List.range dY).flatMap fun v => (List.range dX).map fun u => (u, v)

/-- The loop body of `FVoxelGreedyMesher::ExtractQuadsFromMask`
(part_003:93-130), processing the scan cells in order while mutating
the mask; returns the final mask (discarded by the caller) and the
emitted quads in order. -/
def extractLoop (f : EVoxelFace) (s : Int) (dX dY : Nat) :
    List (Nat × Nat) → (Nat → Nat → FFaceMask) → List FGreedyQuad →
      (Nat → Nat → FFaceMask) × List FGreedyQuad
  | [], mask, acc => (mask, acc)
  | (u, v) :: rest, mask, acc =>
    if (mask u v).bVisible then
      let m := (mask u v).Material
      let wh := ExtendQuad mask dX dY u v m
      let q : FGreedyQuad :=
        ⟨MaskToVoxelPosition (u : Int) (v : Int) s f, ⟨wh.1, wh.2, 1⟩, f, m⟩
      extractLoop f s dX dY rest (MarkQuadProcessed mask u v wh.1 wh.2) (acc ++ [q])
    else
      extractLoop f s dX dY rest mask acc

/-- `FVoxelGreedyMesher::ExtractQuadsFromMask` for one slice (the
caller appends the result to its accumulated `OutQuads`). -/
def ExtractQuadsFromMask (mask : Nat → Nat → FFaceMask) (dX dY : Nat)
    (f : EVoxelFace) (s : Int) : List FGreedyQuad :=
  (extractLoop f s dX dY (scanCells dX dY) mask []).2

/-- `FVoxelGreedyMesher::ProcessFaceDirection` (part_003:26-49): one
mask per slice along the primary axis, quads appended in slice order. -/
def ProcessFaceDirection (c : FVoxelChunkData) (f : EVoxelFace) : List FGreedyQuad :=
  (List.range (c.ChunkSize.ToIntVector.nth (primaryAxis f)).toNat).flatMap fun s =>
    ExtractQuadsFromMask (CreateFaceMask c f (s : Int)) (dimU c f) (dimV c f) f (s : Int)

/-- `FVoxelGreedyMesher::GenerateGreedyMesh` (part_003:8-24): process
the six face directions in id order, appending quads. -/
def GenerateGreedyMesh (c : FVoxelChunkData) : List FGreedyQuad :=
  allFaces.flatMap (ProcessFaceDirection c)

end FVoxelGreedyMesher

section CountingHelpers

variable {α β : Type}

theorem countP_flatMap_eq_sum (l : List α) (g : α → List β) (P : β → Bool) :
    (l.flatMap g).countP P = (l.map fun a => (g a).countP P).sum := by
  induction l with
  | nil => rfl
  | cons a t ih => simp [List.flatMap_cons, List.countP_append, ih]

theorem countP_flatMap_zero (l : List α) (g : α → List β) (P : β → Bool)
    (h : ∀ a ∈ l, (g a).countP P = 0) : (l.flatMap g).countP P = 0 := by
  induction l with
  | nil => rfl
  | cons a t ih =>
    rw [List.flatMap_cons, List.countP_append, h a (by simp),
      ih fun b hb => h b (by simp [hb])]

theorem countP_flatMap_single [DecidableEq α] (l : List α) (g : α → List β)
    (P : β → Bool) (a0 : α) (hmem : a0 ∈ l) (hone : l.count a0 = 1)
    (hz : ∀ a ∈ l, a ≠ a0 → (g a).countP P = 0) :
    (l.flatMap g).countP P = (g a0).countP P := by
  induction l with
  | nil => cases hmem
  | cons a t ih =>
    rw [List.flatMap_cons, List.countP_append]
    by_cases ha : a = a0
    · subst ha
      have hcz : t.count a = 0 := by
        rw [List.count_cons_self] at hone
        omega
      have hnot : a ∉ t := by
        intro hcon
        have := List.count_pos_iff.mpr hcon
        omega
      have hzt : ∀ b ∈ t, (g b).countP P = 0 := by
        intro b hb
        by_cases hb0 : b = a
        · exact absurd (hb0 ▸ hb) hnot
        · exact hz b (by simp [hb]) hb0
      rw [countP_flatMap_zero t g P hzt]
      omega
    · have hz0 : (g a).countP P = 0 := hz a (by simp) ha
      have hmem' : a0 ∈ t := by
        rcases List.mem_cons.mp hmem with h | h
        · exact absurd h.symm ha
        · exact h
      have hone' : t.count a0 = 1 := by
        rw [List.count_cons] at hone
        simpa [ha] using hone
      rw [hz0, ih hmem' hone' fun b hb hb0 => hz b (by simp [hb]) hb0]
      omega

theorem countP_le_one_of_pairwise (R : α → α → Prop) (P : α → Bool) (l : List α)
    (hRP : ∀ a b, R a b → ¬ (P a = true ∧ P b = true)) (hpw : l.Pairwise R) :
    l.countP P ≤ 1 := by
  induction l with
  | nil => simp
  | cons a t ih =>
    rw [List.countP_cons]
    rcases List.pairwise_cons.mp hpw with ⟨hhead, htail⟩
    by_cases hPa : P a = true
    · have hz : t.countP P = 0 :=
        List.countP_eq_zero.mpr fun b hb hPb => hRP a b (hhead b hb) ⟨hPa, hPb⟩
      simp [hz, hPa]
    · have := ih htail
      rw [if_neg hPa]
      omega

theorem pairwise_flatMap_of (R : β → β → Prop) (l : List α) (g : α → List β)
    (hin : ∀ a ∈ l, (g a).Pairwise R)
    (hcross : l.Pairwise fun a b => ∀ x ∈ g a, ∀ y ∈ g b, R x y) :
    (l.flatMap g).Pairwise R := by
  induction l with
  | nil => simp
  | cons a t ih =>
    rw [List.flatMap_cons, List.pairwise_append]
    rcases List.pairwise_cons.mp hcross with ⟨hhead, htail⟩
    refine ⟨hin a (by simp), ih (fun b hb => hin b (by simp [hb])) htail, ?_⟩
    intro x hx y hy
    obtain ⟨b, hb, hyb⟩ := List.mem_flatMap.mp hy
    exact hhead b hb x hx y hyb

theorem count_map_eq_countP [DecidableEq β] (l : List α) (g : α → β) (b : β) :
    (l.map g).count b = l.countP fun a => decide (g a = b) := by
  induction l with
  | nil => rfl
  | cons a t ih =>
    rw [List.map_cons, List.count_cons, List.countP_cons, ih]
    by_cases h : g a = b
    · simp [h]
    · simp [h]

end CountingHelpers

namespace FVoxelMeshGenerator

/-- `FVoxelMeshGenerator::IsFaceVisible` (VoxelMeshGenerator.cpp:335-367):
same visibility rule as the greedy mesher, but with an explicit
out-of-bounds branch that declares boundary faces visible. -/
def IsFaceVisible (c : FVoxelChunkData) (X Y Z : Int) (f : EVoxelFace) : Bool :=
  let cur := c.GetVoxel X Y Z
  if cur.IsAir then false
  else
    let d := GetFaceDirection f
    let nX := X + d.X
    let nY := Y + d.Y
    let nZ := Z + d.Z
    if nX < 0 ∨ nX ≥ c.ChunkSize.X ∨ nY < 0 ∨ nY ≥ c.ChunkSize.Y ∨
        nZ < 0 ∨ nZ ≥ c.ChunkSize.Z then
      true
    else
      let n := c.GetVoxel nX nY nZ
      n.IsAir || (n.IsTransparent && cur.Material ≠ n.Material)

/-- The integer range `[0, n)` iterated by the basic mesher's loops. -/
def rangeInt (n : Int) : List Int :=
  (List.range n.toNat).map Nat.cast

/-- The loop body of `GenerateBasicMesh` for one voxel: skip air, then
emit one face record per visible face in face-id order. -/
def cellFaceRecords (c : FVoxelChunkData) (X Y Z : Int) :
    List (FIntVector × EVoxelFace × EVoxelMaterial) :=
  let v := c.GetVoxel X Y Z
  if v.IsAir then []
  else
    (allFaces.filter fun f => IsFaceVisible c X Y Z f).map
      fun f => (⟨X, Y, Z⟩, f, v.Material)

/-- The faces emitted by `FVoxelMeshGenerator::GenerateBasicMesh`
(VoxelMeshGenerator.cpp:12-86) in emission order: voxels in
`Z`-outer/`Y`/`X`-inner order.  `AddFace` turns each record into one
quad of the output mesh. -/
def basicVisibleFaces (c : FVoxelChunkData) :
    List (FIntVector × EVoxelFace × EVoxelMaterial) :=
  (rangeInt c.ChunkSize.Z).flatMap fun Z =>
    (rangeInt c.ChunkSize.Y).flatMap fun Y =>
      (rangeInt c.ChunkSize.X).flatMap fun X =>
        cellFaceRecords c X Y Z

end FVoxelMeshGenerator

section VisibilityAgreement

/-- The two `IsFaceVisible` implementations agree: the basic mesher's
explicit out-of-bounds branch coincides with the greedy mesher's
reliance on out-of-range reads returning `Air`. -/
theorem isFaceVisible_basic_eq_greedy (c : FVoxelChunkData) (X Y Z : Int)
    (f : EVoxelFace) :
    FVoxelMeshGenerator.IsFaceVisible c X Y Z f =
      FVoxelGreedyMesher.IsFaceVisible c X Y Z f := by
  unfold FVoxelMeshGenerator.IsFaceVisible FVoxelGreedyMesher.IsFaceVisible
  unfold FVoxelGreedyMesher.GetNeighborVoxel
  by_cases hair : (c.GetVoxel X Y Z).IsAir
  · simp [hair]
  · simp only [hair, Bool.false_eq_true, if_false]
    set d := GetFaceDirection f with hd
    by_cases hoob : X + d.X < 0 ∨ X + d.X ≥ c.ChunkSize.X ∨ Y + d.Y < 0 ∨
        Y + d.Y ≥ c.ChunkSize.Y ∨ Z + d.Z < 0 ∨ Z + d.Z ≥ c.ChunkSize.Z
    · have hnR : ¬ c.InRange (X + d.X) (Y + d.Y) (Z + d.Z) := by
        unfold FVoxelChunkData.InRange
        omega
      rw [getVoxel_oob c _ _ _ hnR]
      simp [hoob, airVoxel, FVoxel.IsAir]
    · simp [hoob]

end VisibilityAgreement

namespace FVoxelGreedyMesher

/-- The voxel-face cell of voxel position `p` on face `q.Face` lies in
quad `q`: same slice coordinate, in-plane coordinates inside the
rectangle `[base, base + size)`. -/
def QuadCovers (q : FGreedyQuad) (p : FIntVector) : Prop :=
  p.nth (primaryAxis q.Face) = q.Position.nth (primaryAxis q.Face) ∧
  q.Position.nth (uAxis q.Face) ≤ p.nth (uAxis q.Face) ∧
  p.nth (uAxis q.Face) < q.Position.nth (uAxis q.Face) + q.Size.X ∧
  q.Position.nth (vAxis q.Face) ≤ p.nth (vAxis q.Face) ∧
  p.nth (vAxis q.Face) < q.Position.nth (vAxis q.Face) + q.Size.Y

instance (q : FGreedyQuad) (p : FIntVector) : Decidable (QuadCovers q p) := by
  unfold QuadCovers; infer_instance

theorem maskToVoxel_nth_u (u v s : Int) (f : EVoxelFace) :
    (MaskToVoxelPosition u v s f).nth (uAxis f) = u := by
  cases f <;> rfl

theorem maskToVoxel_nth_v (u v s : Int) (f : EVoxelFace) :
    (MaskToVoxelPosition u v s f).nth (vAxis f) = v := by
  cases f <;> rfl

theorem maskToVoxel_nth_p (u v s : Int) (f : EVoxelFace) :
    (MaskToVoxelPosition u v s f).nth (primaryAxis f) = s := by
  cases f <;> rfl

theorem maskToVoxel_eta (p : FIntVector) (f : EVoxelFace) :
    MaskToVoxelPosition (p.nth (uAxis f)) (p.nth (vAxis f))
      (p.nth (primaryAxis f)) f = p := by
  cases f <;> rfl

theorem le_whileInc (p : Nat → Bool) (hi : Nat) :
    ∀ fuel cur, hi - cur ≤ fuel → cur ≤ whileInc p cur hi := by
  intro fuel
  induction fuel with
  | zero =>
    intro cur hf
    rw [whileInc]
    split
    · omega
    · exact le_refl cur
  | succ n ih =>
    intro cur hf
    rw [whileInc]
    split
    · next h => exact le_trans (by omega) (ih (cur + 1) (by omega))
    · exact le_refl cur

theorem whileInc_le (p : Nat → Bool) (hi : Nat) :
    ∀ fuel cur, hi - cur ≤ fuel → cur ≤ hi → whileInc p cur hi ≤ hi := by
  intro fuel
  induction fuel with
  | zero =>
    intro cur hf hc
    rw [whileInc]
    split
    · omega
    · exact hc
  | succ n ih =>
    intro cur hf hc
    rw [whileInc]
    split
    · next h => exact ih (cur + 1) (by omega) (by omega)
    · exact hc

theorem whileInc_ok (p : Nat → Bool) (hi : Nat) :
    ∀ fuel cur, hi - cur ≤ fuel →
      ∀ k, cur ≤ k → k < whileInc p cur hi → p k = true := by
  intro fuel
  induction fuel with
  | zero =>
    intro cur hf k hk1 hk2
    rw [whileInc] at hk2
    split at hk2
    · omega
    · omega
  | succ n ih =>
    intro cur hf k hk1 hk2
    rw [whileInc] at hk2
    split at hk2
    · next h =>
      by_cases hkc : k = cur
      · exact hkc ▸ h.2
      · exact ih (cur + 1) (by omega) k (by omega) hk2
    · omega

theorem whileInc_all (p : Nat → Bool) (hi : Nat) :
    ∀ fuel cur, hi - cur ≤ fuel → cur ≤ hi →
      (∀ k, cur ≤ k → k < hi → p k = true) → whileInc p cur hi = hi := by
  intro fuel
  induction fuel with
  | zero =>
    intro cur hf hc hall
    rw [whileInc]
    split
    · omega
    · omega
  | succ n ih =>
    intro cur hf hc hall
    rw [whileInc]
    by_cases hlt : cur < hi
    · rw [dif_pos ⟨hlt, hall cur (le_refl cur) hlt⟩]
      exact ih (cur + 1) (by omega) (by omega)
        (fun k h1 h2 => hall k (by omega) h2)
    · rw [dif_neg (by omega)]
      omega

/-- `ExtendQuad` specification: starting from a cell that is visible
with material `m`, the returned rectangle has positive extents, stays
inside the mask, and all of its cells are visible with material `m`. -/
theorem extendQuad_spec (mask : Nat → Nat → FFaceMask) (dX dY : Nat)
    (u0 v0 : Nat) (m : EVoxelMaterial)
    (hbase : cellOk mask m u0 v0 = true) (hu : u0 < dX) (hv : v0 < dY) :
    1 ≤ (ExtendQuad mask dX dY u0 v0 m).1 ∧
      1 ≤ (ExtendQuad mask dX dY u0 v0 m).2 ∧
      u0 + (ExtendQuad mask dX dY u0 v0 m).1 ≤ dX ∧
      v0 + (ExtendQuad mask dX dY u0 v0 m).2 ≤ dY ∧
      ∀ i < (ExtendQuad mask dX dY u0 v0 m).1,
        ∀ j < (ExtendQuad mask dX dY u0 v0 m).2,
          cellOk mask m (u0 + i) (v0 + j) = true := by
  unfold ExtendQuad
  simp only
  set okU : Nat → Bool := fun u => cellOk mask m u v0 with hokU
  set maxU := whileInc okU (u0 + 1) dX with hmaxU
  have hU1 : u0 + 1 ≤ maxU := le_whileInc okU dX (dX - (u0 + 1)) (u0 + 1) (le_refl _)
  have hU2 : maxU ≤ dX := whileInc_le okU dX (dX - (u0 + 1)) (u0 + 1) (le_refl _) (by omega)
  have hUok : ∀ k, u0 + 1 ≤ k → k < maxU → okU k = true :=
    whileInc_ok okU dX (dX - (u0 + 1)) (u0 + 1) (le_refl _)
  set w := maxU - u0 with hw
  set rowOk : Nat → Bool := fun v =>
    (List.range w).all fun i => cellOk mask m (u0 + i) v with hrowOk
  set maxV := whileInc rowOk (v0 + 1) dY with hmaxV
  have hV1 : v0 + 1 ≤ maxV := le_whileInc rowOk dY (dY - (v0 + 1)) (v0 + 1) (le_refl _)
  have hV2 : maxV ≤ dY := whileInc_le rowOk dY (dY - (v0 + 1)) (v0 + 1) (le_refl _) (by omega)
  have hVok : ∀ k, v0 + 1 ≤ k → k < maxV → rowOk k = true :=
    whileInc_ok rowOk dY (dY - (v0 + 1)) (v0 + 1) (le_refl _)
  refine ⟨by omega, by omega, by omega, by omega, ?_⟩
  intro i hi j hj
  have hrow : ∀ i' < w, cellOk mask m (u0 + i') v0 = true := by
    intro i' hi'
    by_cases h0 : i' = 0
    · simpa [h0] using hbase
    · exact hUok (u0 + i') (by omega) (by omega)
  by_cases hj0 : j = 0
  · exact hj0 ▸ hrow i hi
  · have hrj : rowOk (v0 + j) = true := hVok (v0 + j) (by omega) (by omega)
    rw [hrowOk] at hrj
    simp only [List.all_eq_true, List.mem_range] at hrj
    exact hrj i hi

/-- The disjointness relation between quads: no voxel-face cell is
covered by both. -/
def DisjointQuads (q1 q2 : FGreedyQuad) : Prop :=
  ∀ p, ¬ (QuadCovers q1 p ∧ QuadCovers q2 p)

/-- A quad is well-formed with respect to the initial mask `M0` of the
slice `s` of face `f`: it is the translation of a nonempty rectangle of
mask cells, each of which is visible in `M0` and carries the quad's
material. -/
def GoodQuad (f : EVoxelFace) (s : Int) (dX dY : Nat)
    (M0 : Nat → Nat → FFaceMask) (q : FGreedyQuad) : Prop :=
  q.Face = f ∧
  ∃ u0 v0 w h : Nat,
    q.Position = MaskToVoxelPosition (u0 : Int) (v0 : Int) s f ∧
    q.Size = ⟨(w : Int), (h : Int), 1⟩ ∧
    1 ≤ w ∧ 1 ≤ h ∧ u0 + w ≤ dX ∧ v0 + h ≤ dY ∧
    ∀ i < w, ∀ j < h,
      (M0 (u0 + i) (v0 + j)).bVisible = true ∧
      (M0 (u0 + i) (v0 + j)).Material = q.Material

/-- Rectangle membership characterization of `QuadCovers` for a quad
built from mask coordinates. -/
theorem covers_cell_iff (f : EVoxelFace) (s : Int) (u v w h : Nat)
    (m : EVoxelMaterial) (a b : Nat) :
    QuadCovers ⟨MaskToVoxelPosition (u : Int) (v : Int) s f,
        ⟨(w : Int), (h : Int), 1⟩, f, m⟩
      (MaskToVoxelPosition (a : Int) (b : Int) s f) ↔
      (u ≤ a ∧ a < u + w ∧ v ≤ b ∧ b < v + h) := by
  unfold QuadCovers
  simp only [maskToVoxel_nth_u, maskToVoxel_nth_v, maskToVoxel_nth_p]
  constructor
  · rintro ⟨-, h2, h3, h4, h5⟩
    refine ⟨?_, ?_, ?_, ?_⟩ <;> omega
  · rintro ⟨h1, h2, h3, h4⟩
    refine ⟨by simp, ?_, ?_, ?_, ?_⟩ <;> omega

/-- Any point covered by a `GoodQuad` is one of its mask cells:
in-bounds, visible in `M0` and carrying the quad's material. -/
theorem goodQuad_covers_decode (f : EVoxelFace) (s : Int) (dX dY : Nat)
    (M0 : Nat → Nat → FFaceMask) (q : FGreedyQuad)
    (hg : GoodQuad f s dX dY M0 q) (p : FIntVector)
    (hc : QuadCovers q p) :
    ∃ a b : Nat, a < dX ∧ b < dY ∧
      p = MaskToVoxelPosition (a : Int) (b : Int) s f ∧
      (M0 a b).bVisible = true ∧ (M0 a b).Material = q.Material := by
  obtain ⟨hface, u0, v0, w, h, hpos, hsize, hw, hh, hbw, hbh, hcells⟩ := hg
  obtain ⟨hc1, hc2, hc3, hc4, hc5⟩ := hc
  rw [hface] at hc1 hc2 hc3 hc4 hc5
  rw [hpos] at hc1 hc2 hc3 hc4 hc5
  rw [hsize] at hc3 hc5
  simp only [maskToVoxel_nth_u, maskToVoxel_nth_v, maskToVoxel_nth_p] at hc1 hc2 hc3 hc4 hc5
  have hu0 : (0 : Int) ≤ p.nth (uAxis f) := le_trans (by positivity) hc2
  have hv0 : (0 : Int) ≤ p.nth (vAxis f) := le_trans (by positivity) hc4
  refine ⟨(p.nth (uAxis f)).toNat, (p.nth (vAxis f)).toNat, by omega, by omega, ?_, ?_⟩
  · rw [Int.toNat_of_nonneg hu0, Int.toNat_of_nonneg hv0, ← hc1, ← hface, maskToVoxel_eta]
  · have := hcells ((p.nth (uAxis f)).toNat - u0) (by omega)
      ((p.nth (vAxis f)).toNat - v0) (by omega)
    have harg1 : u0 + ((p.nth (uAxis f)).toNat - u0) = (p.nth (uAxis f)).toNat := by omega
    have harg2 : v0 + ((p.nth (vAxis f)).toNat - v0) = (p.nth (vAxis f)).toNat := by omega
    rw [harg1, harg2] at this
    exact this

/-- `MarkQuadProcessed` only clears visibility and never changes the
material. -/
theorem markQuad_vis (mask : Nat → Nat → FFaceMask) (a b w h u v : Nat)
    (hvis : (MarkQuadProcessed mask a b w h u v).bVisible = true) :
    (mask u v).bVisible = true := by
  unfold MarkQuadProcessed at hvis
  split at hvis
  · simp at hvis
  · exact hvis

theorem markQuad_mat (mask : Nat → Nat → FFaceMask) (a b w h u v : Nat) :
    (MarkQuadProcessed mask a b w h u v).Material = (mask u v).Material := by
  unfold MarkQuadProcessed
  split <;> rfl

theorem markQuad_vis_iff (mask : Nat → Nat → FFaceMask) (a b w h u v : Nat) :
    ((MarkQuadProcessed mask a b w h u v).bVisible = true ↔
      ((mask u v).bVisible = true ∧
        ¬ (a ≤ u ∧ u < a + w ∧ b ≤ v ∧ v < b + h))) := by
  unfold MarkQuadProcessed
  split
  · next hin => simp [hin]
  · next hout => simp [hout]

/-- The extraction loop never makes a cell visible. -/
theorem extractLoop_vis_mono (f : EVoxelFace) (s : Int) (dX dY : Nat) :
    ∀ (cells : List (Nat × Nat)) (mask : Nat → Nat → FFaceMask)
      (acc : List FGreedyQuad) (u v : Nat),
      (((extractLoop f s dX dY cells mask acc).1) u v).bVisible = true →
      (mask u v).bVisible = true := by
  intro cells
  induction cells with
  | nil => intro mask acc u v hv; exact hv
  | cons c rest ih =>
    intro mask acc u v hv
    obtain ⟨cu, cv⟩ := c
    rw [extractLoop] at hv
    by_cases hvis : (mask cu cv).bVisible = true
    · rw [if_pos hvis] at hv
      exact markQuad_vis _ _ _ _ _ _ _ (ih _ _ u v hv)
    · rw [if_neg hvis] at hv
      exact ih _ _ u v hv

/-- The extraction loop never changes a cell's material. -/
theorem extractLoop_mat (f : EVoxelFace) (s : Int) (dX dY : Nat) :
    ∀ (cells : List (Nat × Nat)) (mask : Nat → Nat → FFaceMask)
      (acc : List FGreedyQuad) (u v : Nat),
      (((extractLoop f s dX dY cells mask acc).1) u v).Material =
        (mask u v).Material := by
  intro cells
  induction cells with
  | nil => intro mask acc u v; rfl
  | cons c rest ih =>
    intro mask acc u v
    obtain ⟨cu, cv⟩ := c
    rw [extractLoop]
    by_cases hvis : (mask cu cv).bVisible = true
    · rw [if_pos hvis, ih]
      exact markQuad_mat _ _ _ _ _ _ _
    · rw [if_neg hvis, ih]

/-- Main invariant of the mask-extraction loop (part_003:93-130): the
emitted quads are well-formed nonoverlapping rectangles of initially
visible cells, visibility in the running mask tracks "initially visible
and not yet covered", and every processed cell ends invisible. -/
theorem extractLoop_invariant (f : EVoxelFace) (s : Int) (dX dY : Nat)
    (M0 : Nat → Nat → FFaceMask) :
    ∀ (cells : List (Nat × Nat)) (mask : Nat → Nat → FFaceMask)
      (acc : List FGreedyQuad),
      (∀ c ∈ cells, c.1 < dX ∧ c.2 < dY) →
      (∀ u v, (mask u v).Material = (M0 u v).Material) →
      (∀ u v, u < dX → v < dY →
        ((mask u v).bVisible = true ↔
          (M0 u v).bVisible = true ∧
            ∀ q ∈ acc, ¬ QuadCovers q (MaskToVoxelPosition (u : Int) (v : Int) s f))) →
      (∀ q ∈ acc, GoodQuad f s dX dY M0 q) →
      acc.Pairwise DisjointQuads →
      (∀ q ∈ (extractLoop f s dX dY cells mask acc).2, GoodQuad f s dX dY M0 q) ∧
      (extractLoop f s dX dY cells mask acc).2.Pairwise DisjointQuads ∧
      (∀ u v, u < dX → v < dY →
        ((((extractLoop f s dX dY cells mask acc).1) u v).bVisible = true ↔
          (M0 u v).bVisible = true ∧
            ∀ q ∈ (extractLoop f s dX dY cells mask acc).2,
              ¬ QuadCovers q (MaskToVoxelPosition (u : Int) (v : Int) s f))) ∧
      (∀ c ∈ cells, (((extractLoop f s dX dY cells mask acc).1) c.1 c.2).bVisible = false) ∧
      ∃ newQs, (extractLoop f s dX dY cells mask acc).2 = acc ++ newQs := by
  intro cells
  induction cells with
  | nil =>
    intro mask acc hcells hmat hvis hgood hdisj
    refine ⟨hgood, hdisj, hvis, ?_, [], by simp [extractLoop]⟩
    intro c hc
    simp at hc
  | cons c rest ih =>
    intro mask acc hcells hmat hvis hgood hdisj
    obtain ⟨u, v⟩ := c
    have hu : u < dX := (hcells (u, v) (by simp)).1
    have hv : v < dY := (hcells (u, v) (by simp)).2
    rw [extractLoop]
    by_cases hc : (mask u v).bVisible = true
    · rw [if_pos hc]
      set m := (mask u v).Material with hm
      set wh := ExtendQuad mask dX dY u v m with hwh
      set q : FGreedyQuad :=
        ⟨MaskToVoxelPosition (u : Int) (v : Int) s f,
          ⟨(wh.1 : Int), (wh.2 : Int), 1⟩, f, m⟩ with hq
      have hbase : cellOk mask m u v = true := by
        unfold cellOk
        simp [hc]
      have hspec := extendQuad_spec mask dX dY u v m hbase hu hv
      rw [← hwh] at hspec
      obtain ⟨hw1, hh1, hwb, hhb, hcellsok⟩ := hspec
      -- facts about the cells of the new quad
      have hcellvis : ∀ i < wh.1, ∀ j < wh.2,
          (mask (u + i) (v + j)).bVisible = true ∧
            (mask (u + i) (v + j)).Material = m := by
        intro i hi j hj
        have := hcellsok i hi j hj
        unfold cellOk at this
        simp only [Bool.and_eq_true, decide_eq_true_eq] at this
        exact this
      -- the new quad is good
      have hqgood : GoodQuad f s dX dY M0 q := by
        refine ⟨rfl, u, v, wh.1, wh.2, rfl, rfl, hw1, hh1, hwb, hhb, ?_⟩
        intro i hi j hj
        obtain ⟨hvv, hmm⟩ := hcellvis i hi j hj
        have hiv := (hvis (u + i) (v + j) (by omega) (by omega)).mp hvv
        refine ⟨hiv.1, ?_⟩
        rw [← hmat (u + i) (v + j)]
        exact hmm
      -- points covered by the new quad are not covered by acc
      have hqfresh : ∀ q' ∈ acc, DisjointQuads q' q := by
        intro q' hq' p ⟨hcov', hcov⟩
        obtain ⟨hc1, hc2, hc3, hc4, hc5⟩ := hcov
        simp only [hq] at hc1 hc2 hc3 hc4 hc5
        simp only [maskToVoxel_nth_u, maskToVoxel_nth_v, maskToVoxel_nth_p] at hc1 hc2 hc3 hc4 hc5
        have hu0 : (0 : Int) ≤ p.nth (uAxis f) := le_trans (by positivity) hc2
        have hv0 : (0 : Int) ≤ p.nth (vAxis f) := le_trans (by positivity) hc4
        set a := (p.nth (uAxis f)).toNat with ha
        set b := (p.nth (vAxis f)).toNat with hb
        have hpa : p = MaskToVoxelPosition (a : Int) (b : Int) s f := by
          rw [ha, hb, Int.toNat_of_nonneg hu0, Int.toNat_of_nonneg hv0, ← hc1, maskToVoxel_eta]
        have hmv : (mask a b).bVisible = true := by
          have h1 := (hcellvis (a - u) (by omega) (b - v) (by omega)).1
          have e1 : u + (a - u) = a := by omega
          have e2 : v + (b - v) = b := by omega
          rw [e1, e2] at h1
          exact h1
        have := (hvis a b (by omega) (by omega)).mp hmv
        exact this.2 q' hq' (hpa ▸ hcov')
      -- hypotheses for the recursive call
      have hvis2 : ∀ a b, a < dX → b < dY →
          ((MarkQuadProcessed mask u v wh.1 wh.2 a b).bVisible = true ↔
            (M0 a b).bVisible = true ∧
              ∀ q' ∈ acc ++ [q],
                ¬ QuadCovers q' (MaskToVoxelPosition (a : Int) (b : Int) s f)) := by
        intro a b hadX hbdY
        rw [markQuad_vis_iff, hvis a b hadX hbdY]
        have hrect : (u ≤ a ∧ a < u + wh.1 ∧ v ≤ b ∧ b < v + wh.2) ↔
            QuadCovers q (MaskToVoxelPosition (a : Int) (b : Int) s f) :=
          (covers_cell_iff f s u v wh.1 wh.2 m a b).symm
        constructor
        · rintro ⟨⟨hM0, hacc⟩, hnr⟩
          refine ⟨hM0, ?_⟩
          intro q' hq'
          rcases List.mem_append.mp hq' with hmem | hmem
          · exact hacc q' hmem
          · simp only [List.mem_singleton] at hmem
            subst hmem
            exact fun hcv => hnr (hrect.mpr hcv)
        · rintro ⟨hM0, hall⟩
          refine ⟨⟨hM0, fun q' hq' => hall q' (List.mem_append.mpr (Or.inl hq'))⟩, ?_⟩
          intro hr
          exact hall q (List.mem_append.mpr (Or.inr (by simp))) (hrect.mp hr)
      have hgood2 : ∀ q' ∈ acc ++ [q], GoodQuad f s dX dY M0 q' := by
        intro q' hq'
        rcases List.mem_append.mp hq' with hmem | hmem
        · exact hgood q' hmem
        · simp only [List.mem_singleton] at hmem
          exact hmem ▸ hqgood
      have hdisj2 : (acc ++ [q]).Pairwise DisjointQuads := by
        rw [List.pairwise_append]
        refine ⟨hdisj, List.pairwise_singleton _ _, ?_⟩
        intro q1 h1 q2 h2
        simp only [List.mem_singleton] at h2
        subst h2
        exact hqfresh q1 h1
      have hmat2 : ∀ a b, (MarkQuadProcessed mask u v wh.1 wh.2 a b).Material = (M0 a b).Material := by
        intro a b
        rw [markQuad_mat]
        exact hmat a b
      have hcells2 : ∀ c ∈ rest, c.1 < dX ∧ c.2 < dY := by
        intro c hcm
        exact hcells c (by simp [hcm])
      have IH := ih (MarkQuadProcessed mask u v wh.1 wh.2) (acc ++ [q])
        hcells2 hmat2 hvis2 hgood2 hdisj2
      obtain ⟨ih1, ih2, ih3, ih4, newQs, ih5⟩ := IH
      refine ⟨ih1, ih2, ih3, ?_, ?_⟩
      · intro c hcm
        rcases List.mem_cons.mp hcm with hhd | htl
        · subst hhd
          -- the head cell is inside the new rectangle, hence invisible
          by_contra hcon
          simp only [Bool.not_eq_false] at hcon
          have hmarked := extractLoop_vis_mono f s dX dY rest _ _ _ _ hcon
          rw [markQuad_vis_iff] at hmarked
          apply hmarked.2
          refine ⟨le_refl u, ?_, le_refl v, ?_⟩
          · show u < u + wh.1
            omega
          · show v < v + wh.2
            omega
        · exact ih4 c htl
      · exact ⟨[q] ++ newQs, by simp [ih5]⟩
    · rw [if_neg hc]
      have hcells2 : ∀ c ∈ rest, c.1 < dX ∧ c.2 < dY := by
        intro c hcm
        exact hcells c (by simp [hcm])
      have IH := ih mask acc hcells2 hmat hvis hgood hdisj
      obtain ⟨ih1, ih2, ih3, ih4, newQs, ih5⟩ := IH
      refine ⟨ih1, ih2, ih3, ?_, newQs, ih5⟩
      intro c hcm
      rcases List.mem_cons.mp hcm with hhd | htl
      · subst hhd
        by_contra hcon
        simp only [Bool.not_eq_false] at hcon
        exact hc (extractLoop_vis_mono f s dX dY rest _ _ _ _ hcon)
      · exact ih4 c htl

theorem mem_scanCells (dX dY u v : Nat) :
    (u, v) ∈ scanCells dX dY ↔ u < dX ∧ v < dY := by
  unfold scanCells
  constructor
  · intro h
    obtain ⟨b, hb, hmem⟩ := List.mem_flatMap.mp h
    obtain ⟨a, ha, heq⟩ := List.mem_map.mp hmem
    obtain ⟨h1, h2⟩ := Prod.mk.injEq .. ▸ heq
    cases heq
    exact ⟨List.mem_range.mp ha, List.mem_range.mp hb⟩
  · rintro ⟨h1, h2⟩
    exact List.mem_flatMap.mpr ⟨v, List.mem_range.mpr h2,
      List.mem_map.mpr ⟨u, List.mem_range.mpr h1, rfl⟩⟩

/-- Specification of one slice's extraction: the emitted quads are
well-formed and pairwise disjoint, and every visible cell of the
initial mask is covered by some emitted quad. -/
theorem extractQuads_spec (M0 : Nat → Nat → FFaceMask) (dX dY : Nat)
    (f : EVoxelFace) (s : Int) :
    (∀ q ∈ ExtractQuadsFromMask M0 dX dY f s, GoodQuad f s dX dY M0 q) ∧
    (ExtractQuadsFromMask M0 dX dY f s).Pairwise DisjointQuads ∧
    (∀ u v, u < dX → v < dY → (M0 u v).bVisible = true →
      ∃ q ∈ ExtractQuadsFromMask M0 dX dY f s,
        QuadCovers q (MaskToVoxelPosition (u : Int) (v : Int) s f)) := by
  have hinv := extractLoop_invariant f s dX dY M0 (scanCells dX dY) M0 []
    (by
      intro cc hcc
      obtain ⟨cu, cv⟩ := cc
      exact (mem_scanCells dX dY cu cv).mp hcc)
    (fun u v => rfl)
    (by intro u v hu hv; simp)
    (by intro q hq; simp at hq)
    List.Pairwise.nil
  obtain ⟨h1, h2, h3, h4, -⟩ := hinv
  refine ⟨h1, h2, ?_⟩
  intro u v hu hv hvis
  have hfin := h4 (u, v) ((mem_scanCells dX dY u v).mpr ⟨hu, hv⟩)
  have hiff := h3 u v hu hv
  by_contra hcon
  push_neg at hcon
  have : ((extractLoop f s dX dY (scanCells dX dY) M0 []).1 u v).bVisible = true :=
    hiff.mpr ⟨hvis, fun q hq => hcon q hq⟩
  simp only [hfin] at this
  cases this

/-- The visibility bit computed by `CreateFaceMask` is exactly
`IsFaceVisible` at the decoded voxel position. -/
theorem createFaceMask_visible (c : FVoxelChunkData) (f : EVoxelFace) (s : Int)
    (u v : Nat) :
    (CreateFaceMask c f s u v).bVisible =
      IsFaceVisible c (MaskToVoxelPosition (u : Int) (v : Int) s f).X
        (MaskToVoxelPosition (u : Int) (v : Int) s f).Y
        (MaskToVoxelPosition (u : Int) (v : Int) s f).Z f := by
  unfold CreateFaceMask IsFaceVisible
  by_cases h : (c.GetVoxel (MaskToVoxelPosition (u : Int) (v : Int) s f).X
      (MaskToVoxelPosition (u : Int) (v : Int) s f).Y
      (MaskToVoxelPosition (u : Int) (v : Int) s f).Z).IsAir = true
  · simp [h]
  · simp [h]

/-- A visible face implies the voxel coordinate is in range (an
out-of-range read yields `Air`, which is never visible). -/
theorem isFaceVisible_inRange (c : FVoxelChunkData) (x y z : Int)
    (f : EVoxelFace) (h : IsFaceVisible c x y z f = true) :
    c.InRange x y z := by
  by_contra hn
  unfold IsFaceVisible at h
  rw [getVoxel_oob c x y z hn] at h
  simp [airVoxel, FVoxel.IsAir] at h

/-- Per-face decomposition of the in-range predicate along the face's
axis permutation. -/
theorem inRange_iff_axes (c : FVoxelChunkData) (p : FIntVector) (f : EVoxelFace) :
    c.InRange p.X p.Y p.Z ↔
      (0 ≤ p.nth (primaryAxis f) ∧
        p.nth (primaryAxis f) < c.ChunkSize.ToIntVector.nth (primaryAxis f) ∧
        0 ≤ p.nth (uAxis f) ∧
        p.nth (uAxis f) < c.ChunkSize.ToIntVector.nth (uAxis f) ∧
        0 ≤ p.nth (vAxis f) ∧
        p.nth (vAxis f) < c.ChunkSize.ToIntVector.nth (vAxis f)) := by
  cases f <;>
    simp [FVoxelChunkData.InRange, primaryAxis, uAxis, vAxis, GetFaceAxes,
      FIntVector.nth, FVoxelChunkSize.ToIntVector] <;>
    tauto

/-- The number of slices processed for a face direction. -/
def sliceCount (c : FVoxelChunkData) (f : EVoxelFace) : Nat :=
  (c.ChunkSize.ToIntVector.nth (primaryAxis f)).toNat

theorem processFaceDirection_eq (c : FVoxelChunkData) (f : EVoxelFace) :
    ProcessFaceDirection c f =
      (List.range (sliceCount c f)).flatMap fun s =>
        ExtractQuadsFromMask (CreateFaceMask c f (s : Int)) (dimU c f) (dimV c f)
          f (s : Int) := rfl

/-- Every quad emitted for face `f` carries face tag `f`. -/
theorem processFace_face (c : FVoxelChunkData) (f : EVoxelFace) :
    ∀ q ∈ ProcessFaceDirection c f, q.Face = f := by
  intro q hq
  rw [processFaceDirection_eq] at hq
  obtain ⟨s, hs, hmem⟩ := List.mem_flatMap.mp hq
  exact ((extractQuads_spec (CreateFaceMask c f (s : Int)) (dimU c f) (dimV c f)
    f (s : Int)).1 q hmem).1

/-- Soundness: any voxel face covered by an emitted quad of face `f` is
visible under the §4.2 rule. -/
theorem processFace_covers_visible (c : FVoxelChunkData) (f : EVoxelFace) :
    ∀ q ∈ ProcessFaceDirection c f, ∀ p : FIntVector,
      QuadCovers q p → IsFaceVisible c p.X p.Y p.Z f = true := by
  intro q hq p hcov
  rw [processFaceDirection_eq] at hq
  obtain ⟨s, hs, hmem⟩ := List.mem_flatMap.mp hq
  have hspec := extractQuads_spec (CreateFaceMask c f (s : Int)) (dimU c f)
    (dimV c f) f (s : Int)
  have hgood := hspec.1 q hmem
  obtain ⟨a, b, ha, hb, hp, hvisM, -⟩ :=
    goodQuad_covers_decode f (s : Int) (dimU c f) (dimV c f) _ q hgood p hcov
  rw [createFaceMask_visible] at hvisM
  rw [hp]
  exact hvisM

/-- The slice coordinate of every point covered by a quad of slice `s`
equals `s`. -/
theorem processFace_covers_slice (c : FVoxelChunkData) (f : EVoxelFace)
    (s : Nat) (q : FGreedyQuad)
    (hq : q ∈ ExtractQuadsFromMask (CreateFaceMask c f (s : Int)) (dimU c f)
      (dimV c f) f (s : Int))
    (p : FIntVector) (hcov : QuadCovers q p) :
    p.nth (primaryAxis f) = (s : Int) := by
  have hgood := (extractQuads_spec (CreateFaceMask c f (s : Int)) (dimU c f)
    (dimV c f) f (s : Int)).1 q hq
  obtain ⟨hface, u0, v0, w, h, hpos, -, -, -, -, -, -⟩ := hgood
  have h1 := hcov.1
  rw [hface] at h1
  rw [h1, hpos, maskToVoxel_nth_p]

/-- The quads emitted for one face direction are pairwise disjoint
(within a slice by the extraction invariant, across slices because the
slice coordinate differs). -/
theorem processFace_pairwise (c : FVoxelChunkData) (f : EVoxelFace) :
    (ProcessFaceDirection c f).Pairwise DisjointQuads := by
  rw [processFaceDirection_eq]
  apply pairwise_flatMap_of
  · intro s hs
    exact (extractQuads_spec (CreateFaceMask c f (s : Int)) (dimU c f)
      (dimV c f) f (s : Int)).2.1
  · have hlt := List.pairwise_lt_range (sliceCount c f)
    refine hlt.imp ?_
    intro s1 s2 h12 q1 h1 q2 h2 p ⟨hc1, hc2⟩
    have e1 := processFace_covers_slice c f s1 q1 h1 p hc1
    have e2 := processFace_covers_slice c f s2 q2 h2 p hc2
    rw [e1] at e2
    have : s1 = s2 := by exact_mod_cast e2
    omega

/-- Completeness: every visible voxel face is covered by some quad of
its face direction. -/
theorem processFace_coverage (c : FVoxelChunkData) (f : EVoxelFace)
    (p : FIntVector) (hvis : IsFaceVisible c p.X p.Y p.Z f = true) :
    ∃ q ∈ ProcessFaceDirection c f, QuadCovers q p := by
  have hIR := isFaceVisible_inRange c p.X p.Y p.Z f hvis
  have hax := (inRange_iff_axes c p f).mp hIR
  obtain ⟨hp0, hp1, hu0, hu1, hv0, hv1⟩ := hax
  set s : Nat := (p.nth (primaryAxis f)).toNat with hsdef
  set u : Nat := (p.nth (uAxis f)).toNat with hudef
  set v : Nat := (p.nth (vAxis f)).toNat with hvdef
  have hcell : MaskToVoxelPosition (u : Int) (v : Int) (s : Int) f = p := by
    rw [hsdef, hudef, hvdef, Int.toNat_of_nonneg hu0, Int.toNat_of_nonneg hv0,
      Int.toNat_of_nonneg hp0, maskToVoxel_eta]
  have hmask : (CreateFaceMask c f (s : Int) u v).bVisible = true := by
    rw [createFaceMask_visible, hcell]
    exact hvis
  have hu' : u < dimU c f := by
    unfold dimU
    omega
  have hv' : v < dimV c f := by
    unfold dimV
    omega
  have hs' : s < sliceCount c f := by
    unfold sliceCount
    omega
  obtain ⟨q, hqmem, hqcov⟩ := (extractQuads_spec (CreateFaceMask c f (s : Int))
    (dimU c f) (dimV c f) f (s : Int)).2.2 u v hu' hv' hmask
  rw [hcell] at hqcov
  refine ⟨q, ?_, hqcov⟩
  rw [processFaceDirection_eq]
  exact List.mem_flatMap.mpr ⟨s, List.mem_range.mpr hs', hqmem⟩

theorem countP_congr_mem {α : Type} (l : List α) (P Q : α → Bool)
    (h : ∀ a ∈ l, P a = Q a) : l.countP P = l.countP Q := by
  induction l with
  | nil => rfl
  | cons a t ih =>
    rw [List.countP_cons, List.countP_cons, h a (by simp),
      ih fun b hb => h b (by simp [hb])]

/-- Exactly-once coverage by the greedy mesher: for every chunk, every
voxel position `p` and every face `f`, the number of greedy quads of
face `f` covering the voxel face `(p, f)` is `1` when that face is
visible under the §4.2 rule and `0` otherwise. -/
theorem greedy_cover_count (c : FVoxelChunkData) (p : FIntVector)
    (f : EVoxelFace) :
    (GenerateGreedyMesh c).countP
        (fun q => decide (q.Face = f ∧ QuadCovers q p)) =
      if IsFaceVisible c p.X p.Y p.Z f = true then 1 else 0 := by
  unfold GenerateGreedyMesh
  rw [countP_flatMap_single allFaces (ProcessFaceDirection c) _ f
    (by cases f <;> simp [allFaces])
    (by cases f <;> rfl)
    (by
      intro g hg hgf
      apply List.countP_eq_zero.mpr
      intro q hq hPq
      have := (of_decide_eq_true hPq).1
      rw [processFace_face c g q hq] at this
      exact hgf this)]
  rw [countP_congr_mem (ProcessFaceDirection c f) _
    (fun q => decide (QuadCovers q p))
    (by
      intro q hq
      simp [processFace_face c f q hq])]
  by_cases hvis : IsFaceVisible c p.X p.Y p.Z f = true
  · rw [if_pos hvis]
    obtain ⟨q, hq, hcov⟩ := processFace_coverage c f p hvis
    have hpos : 0 < (ProcessFaceDirection c f).countP
        (fun q => decide (QuadCovers q p)) :=
      List.countP_pos_iff.mpr ⟨q, hq, decide_eq_true hcov⟩
    have hle := countP_le_one_of_pairwise DisjointQuads
      (fun q => decide (QuadCovers q p)) (ProcessFaceDirection c f)
      (fun a b hR hab =>
        hR p ⟨of_decide_eq_true hab.1, of_decide_eq_true hab.2⟩)
      (processFace_pairwise c f)
    omega
  · rw [if_neg hvis]
    exact List.countP_eq_zero.mpr fun q hq hP =>
      hvis (processFace_covers_visible c f q hq p (of_decide_eq_true hP))

theorem extendQuad_full (mask : Nat → Nat → FFaceMask) (dX dY : Nat)
    (m : EVoxelMaterial)
    (hall : ∀ u < dX, ∀ v < dY, cellOk mask m u v = true)
    (hdX : 0 < dX) (hdY : 0 < dY) :
    ExtendQuad mask dX dY 0 0 m = (dX, dY) := by
  unfold ExtendQuad
  simp only
  have hU : whileInc (fun u => cellOk mask m u 0) 1 dX = dX :=
    whileInc_all _ dX (dX - 1) 1 (le_refl _) (by omega)
      (fun k h1 h2 => hall k h2 0 hdY)
  rw [hU]
  have hrow : ∀ k, 1 ≤ k → k < dY →
      ((List.range (dX - 0)).all fun i => cellOk mask m (0 + i) k) = true := by
    intro k h1 h2
    simp only [List.all_eq_true, List.mem_range]
    intro i hi
    exact hall (0 + i) (by omega) k h2
  have hV : whileInc (fun v => (List.range (dX - 0)).all
      fun i => cellOk mask m (0 + i) v) 1 dY = dY :=
    whileInc_all _ dY (dY - 1) 1 (le_refl _) (by omega) hrow
  rw [hV]
  simp

end FVoxelGreedyMesher

section BasicCount

open FVoxelMeshGenerator

theorem mem_rangeInt (n z : Int) : z ∈ rangeInt n ↔ 0 ≤ z ∧ z < n := by
  unfold rangeInt
  simp only [List.mem_map, List.mem_range]
  constructor
  · rintro ⟨i, hi, rfl⟩
    omega
  · rintro ⟨h0, h1⟩
    exact ⟨z.toNat, by omega, by omega⟩

theorem nodup_rangeInt (n : Int) : (rangeInt n).Nodup := by
  unfold rangeInt
  exact (List.nodup_range n.toNat).map fun a b h => by exact_mod_cast h

theorem count_rangeInt (n z : Int) (h0 : 0 ≤ z) (h1 : z < n) :
    (rangeInt n).count z = 1 :=
  List.count_eq_one_of_mem (nodup_rangeInt n) ((mem_rangeInt n z).mpr ⟨h0, h1⟩)

theorem countP_allFaces_ind (f : EVoxelFace) (P : EVoxelFace → Bool) :
    allFaces.countP (fun g => decide (g = f) && P g) =
      if P f = true then 1 else 0 := by
  rcases hP : P f <;> cases f <;>
    simp [allFaces, List.countP_cons, List.countP_nil, hP]

/-- Count of basic-mesher records at one voxel cell: the cell emits the
record `(p, f)` exactly once when the cell is `p` and face `f` is
visible there. -/
theorem cellFaceRecords_countP (c : FVoxelChunkData) (p : FIntVector)
    (f : EVoxelFace) (X Y Z : Int) :
    (cellFaceRecords c X Y Z).countP
        (fun r => decide (r.1 = p ∧ r.2.1 = f)) =
      if (⟨X, Y, Z⟩ : FIntVector) = p ∧
          FVoxelGreedyMesher.IsFaceVisible c X Y Z f = true then 1 else 0 := by
  unfold cellFaceRecords
  by_cases hair : (c.GetVoxel X Y Z).IsAir = true
  · rw [if_pos hair]
    have hnv : FVoxelGreedyMesher.IsFaceVisible c X Y Z f = false := by
      unfold FVoxelGreedyMesher.IsFaceVisible
      simp [hair]
    simp [hnv]
  · rw [if_neg hair]
    rw [List.countP_map]
    by_cases hp : (⟨X, Y, Z⟩ : FIntVector) = p
    · have hcomp : ((fun r : FIntVector × EVoxelFace × EVoxelMaterial =>
          decide (r.1 = p ∧ r.2.1 = f)) ∘
            fun g => ((⟨X, Y, Z⟩ : FIntVector), g, (c.GetVoxel X Y Z).Material)) =
          fun g => decide (g = f) := by
        funext g
        simp [hp]
      rw [hcomp, List.countP_filter]
      have : (fun a => decide (a = f) && IsFaceVisible c X Y Z a) =
          fun a => decide (a = f) && (fun g => IsFaceVisible c X Y Z g) a := rfl
      rw [countP_allFaces_ind f (fun g => IsFaceVisible c X Y Z g)]
      rw [isFaceVisible_basic_eq_greedy]
      simp [hp]
    · have hz : ∀ g ∈ allFaces.filter fun g => IsFaceVisible c X Y Z g,
          ¬ ((fun r : FIntVector × EVoxelFace × EVoxelMaterial =>
            decide (r.1 = p ∧ r.2.1 = f)) ∘
              fun g => ((⟨X, Y, Z⟩ : FIntVector), g,
                (c.GetVoxel X Y Z).Material)) g = true := by
        intro g hg
        simp [hp]
      rw [List.countP_eq_zero.mpr hz]
      simp [hp]

/-- Exactly-once coverage by the basic mesher: the record list of
`GenerateBasicMesh` contains `(p, f, ·)` once when the voxel face is
visible under §4.2 and never otherwise. -/
theorem basic_cover_count (c : FVoxelChunkData) (p : FIntVector)
    (f : EVoxelFace) :
    (basicVisibleFaces c).countP (fun r => decide (r.1 = p ∧ r.2.1 = f)) =
      if FVoxelGreedyMesher.IsFaceVisible c p.X p.Y p.Z f = true
        then 1 else 0 := by
  by_cases hin : c.InRange p.X p.Y p.Z
  · obtain ⟨hx0, hx1, hy0, hy1, hz0, hz1⟩ := hin
    unfold basicVisibleFaces
    rw [countP_flatMap_single (rangeInt c.ChunkSize.Z) _ _ p.Z
      ((mem_rangeInt _ _).mpr ⟨hz0, hz1⟩) (count_rangeInt _ _ hz0 hz1)
      (by
        intro z hz hzp
        apply countP_flatMap_zero
        intro y hy
        apply countP_flatMap_zero
        intro x hx
        rw [cellFaceRecords_countP, if_neg]
        rintro ⟨hpe, -⟩
        exact hzp (congrArg FIntVector.Z hpe))]
    rw [countP_flatMap_single (rangeInt c.ChunkSize.Y) _ _ p.Y
      ((mem_rangeInt _ _).mpr ⟨hy0, hy1⟩) (count_rangeInt _ _ hy0 hy1)
      (by
        intro y hy hyp
        apply countP_flatMap_zero
        intro x hx
        rw [cellFaceRecords_countP, if_neg]
        rintro ⟨hpe, -⟩
        exact hyp (congrArg FIntVector.Y hpe))]
    rw [countP_flatMap_single (rangeInt c.ChunkSize.X) _ _ p.X
      ((mem_rangeInt _ _).mpr ⟨hx0, hx1⟩) (count_rangeInt _ _ hx0 hx1)
      (by
        intro x hx hxp
        rw [cellFaceRecords_countP, if_neg]
        rintro ⟨hpe, -⟩
        exact hxp (congrArg FIntVector.X hpe))]
    rw [cellFaceRecords_countP]
    have hpe : (⟨p.X, p.Y, p.Z⟩ : FIntVector) = p := rfl
    simp [hpe]
  · have hnv : FVoxelGreedyMesher.IsFaceVisible c p.X p.Y p.Z f = false := by
      rcases hb : FVoxelGreedyMesher.IsFaceVisible c p.X p.Y p.Z f
      · rfl
      · exact absurd (FVoxelGreedyMesher.isFaceVisible_inRange c p.X p.Y p.Z f hb) hin
    rw [hnv]
    simp only [Bool.false_eq_true, if_false]
    unfold basicVisibleFaces
    apply countP_flatMap_zero
    intro z hz
    apply countP_flatMap_zero
    intro y hy
    apply countP_flatMap_zero
    intro x hx
    rw [cellFaceRecords_countP, if_neg]
    rintro ⟨hpe, -⟩
    apply hin
    rw [← hpe]
    exact ⟨(mem_rangeInt _ _).mp hx |>.1, (mem_rangeInt _ _).mp hx |>.2,
      (mem_rangeInt _ _).mp hy |>.1, (mem_rangeInt _ _).mp hy |>.2,
      (mem_rangeInt _ _).mp hz |>.1, (mem_rangeInt _ _).mp hz |>.2⟩

end BasicCount

namespace FVoxelGreedyMesher

theorem maskToVoxel_eq_iff (a b s a' b' s' : Int) (f : EVoxelFace) :
    MaskToVoxelPosition a b s f = MaskToVoxelPosition a' b' s' f ↔
      (a = a' ∧ b = b' ∧ s = s') := by
  cases f <;> simp [MaskToVoxelPosition, FIntVector.mk.injEq] <;> tauto

theorem countP_range_decide (n k : Nat) :
    (List.range n).countP (fun j => decide (j = k)) =
      if k < n then 1 else 0 := by
  induction n with
  | zero => simp
  | succ n ih =>
    rw [List.range_succ, List.countP_append, ih, List.countP_cons,
      List.countP_nil]
    by_cases hk : n = k
    · subst hk
      simp
    · have hd : decide (n = k) = false := decide_eq_false hk
      rw [hd]
      simp only [Bool.false_eq_true, if_false]
      split_ifs <;> omega

/-- The voxel-face cells covered by one quad, enumerated `i` along the
u axis (outer) and `j` along the v axis (inner). -/
def quadCellList (q : FGreedyQuad) : List FIntVector :=
  (List.range q.Size.X.toNat).flatMap fun (i : Nat) =>
    (List.range q.Size.Y.toNat).map fun (j : Nat) =>
      MaskToVoxelPosition (q.Position.nth (uAxis q.Face) + (i : Int))
        (q.Position.nth (vAxis q.Face) + (j : Int))
        (q.Position.nth (primaryAxis q.Face)) q.Face

/-- A quad's cell enumeration lists each covered position exactly once. -/
theorem quadCellList_countP (q : FGreedyQuad) (p : FIntVector) :
    (quadCellList q).countP (fun x => decide (x = p)) =
      if QuadCovers q p then 1 else 0 := by
  have hcell_eq : ∀ (i j : Nat),
      (MaskToVoxelPosition (q.Position.nth (uAxis q.Face) + (i : Int))
          (q.Position.nth (vAxis q.Face) + (j : Int))
          (q.Position.nth (primaryAxis q.Face)) q.Face = p ↔
        (q.Position.nth (uAxis q.Face) + (i : Int) = p.nth (uAxis q.Face) ∧
          q.Position.nth (vAxis q.Face) + (j : Int) = p.nth (vAxis q.Face) ∧
          q.Position.nth (primaryAxis q.Face) =
            p.nth (primaryAxis q.Face))) := by
    intro i j
    constructor
    · intro h
      have h2 := maskToVoxel_eta p q.Face
      rw [← h2] at h
      exact (maskToVoxel_eq_iff _ _ _ _ _ _ q.Face).mp h
    · rintro ⟨h1, h2, h3⟩
      rw [h1, h2, h3, maskToVoxel_eta]
  by_cases hc : QuadCovers q p
  · obtain ⟨hc1, hc2, hc3, hc4, hc5⟩ := hc
    have hwpos : 0 < q.Size.X.toNat := by omega
    have hhpos : 0 < q.Size.Y.toNat := by omega
    have hiStarLt :
        (p.nth (uAxis q.Face) - q.Position.nth (uAxis q.Face)).toNat <
          q.Size.X.toNat := by omega
    have hjStarLt :
        (p.nth (vAxis q.Face) - q.Position.nth (vAxis q.Face)).toNat <
          q.Size.Y.toNat := by omega
    unfold quadCellList
    rw [countP_flatMap_single (List.range q.Size.X.toNat) _ _
      ((p.nth (uAxis q.Face) - q.Position.nth (uAxis q.Face)).toNat)
      (List.mem_range.mpr hiStarLt)
      (List.count_eq_one_of_mem (List.nodup_range _)
        (List.mem_range.mpr hiStarLt))
      (by
        intro i hi hiNe
        apply List.countP_eq_zero.mpr
        intro x hx
        obtain ⟨j, hj, rfl⟩ := List.mem_map.mp hx
        simp only [decide_eq_true_eq]
        intro hxe
        obtain ⟨h1, -, -⟩ := (hcell_eq i j).mp hxe
        omega)]
    rw [List.countP_map]
    rw [countP_congr_mem _ _
      (fun j => decide
        (j = (p.nth (vAxis q.Face) - q.Position.nth (vAxis q.Face)).toNat))
      (by
        intro j hj
        simp only [Function.comp_apply, decide_eq_decide]
        rw [hcell_eq _ j]
        omega)]
    rw [countP_range_decide, if_pos hjStarLt,
      if_pos ⟨hc1, hc2, hc3, hc4, hc5⟩]
  · rw [if_neg hc]
    unfold quadCellList
    apply countP_flatMap_zero
    intro i hi
    apply List.countP_eq_zero.mpr
    intro x hx
    obtain ⟨j, hj, rfl⟩ := List.mem_map.mp hx
    simp only [decide_eq_true_eq]
    intro hxe
    obtain ⟨h1, h2, h3⟩ := (hcell_eq i j).mp hxe
    apply hc
    have hib := List.mem_range.mp hi
    have hjb := List.mem_range.mp hj
    have hibound : (i : Int) < q.Size.X := by omega
    have hjbound : (j : Int) < q.Size.Y := by omega
    exact ⟨h3.symm, by omega, by omega, by omega, by omega⟩

/-- Counting a voxel face in the concatenated cell enumeration of a
quad list equals counting covering quads. -/
theorem countP_flatMap_blocks (L : List FGreedyQuad) (p : FIntVector)
    (f : EVoxelFace) :
    ((L.flatMap fun q => (quadCellList q).map fun x => (x, q.Face)).countP
        fun r => decide (r = (p, f))) =
      L.countP fun q => decide (q.Face = f ∧ QuadCovers q p) := by
  induction L with
  | nil => rfl
  | cons q t ih =>
    rw [List.flatMap_cons, List.countP_append, ih, List.countP_cons]
    have hblock : (((quadCellList q).map fun x => (x, q.Face)).countP
        fun r => decide (r = (p, f))) =
        if q.Face = f ∧ QuadCovers q p then 1 else 0 := by
      rw [List.countP_map]
      by_cases hf : q.Face = f
      · rw [countP_congr_mem _ _ (fun x => decide (x = p))
          (by intro x hx; simp [Prod.ext_iff, hf])]
        rw [quadCellList_countP]
        by_cases hcov : QuadCovers q p
        · rw [if_pos hcov, if_pos ⟨hf, hcov⟩]
        · rw [if_neg hcov, if_neg (by tauto)]
      · rw [List.countP_eq_zero.mpr (by
          intro x hx
          simp [Prod.ext_iff, hf])]
        rw [if_neg (by tauto)]
    rw [hblock]
    simp only [decide_eq_true_eq]
    omega

end FVoxelGreedyMesher

theorem list_count_eq_countP_dec {α : Type} [DecidableEq α] (l : List α)
    (a : α) : l.count a = l.countP fun x => decide (x = a) := by
  induction l with
  | nil => rfl
  | cons b t ih =>
    rw [List.count_cons, List.countP_cons, ih]
    by_cases h : b = a
    · simp [h]
    · simp [h]

/-- The multiset of voxel faces covered by the greedy pipeline's quads:
each quad contributes every voxel-face cell of its rectangle. -/
def greedyCoveredFaces (c : FVoxelChunkData) :
    Multiset (FIntVector × EVoxelFace) :=
  ((FVoxelGreedyMesher.GenerateGreedyMesh c).flatMap fun q =>
    (FVoxelGreedyMesher.quadCellList q).map fun x => (x, q.Face))

/-- The multiset of voxel faces emitted by the basic mesher (one per
emitted quad). -/
def basicCoveredFaces (c : FVoxelChunkData) :
    Multiset (FIntVector × EVoxelFace) :=
  ((FVoxelMeshGenerator.basicVisibleFaces c).map fun r => (r.1, r.2.1))

/-- Shared helper: the greedy and basic meshers cover the same multiset
of voxel faces. -/
theorem covered_faces_eq (c : FVoxelChunkData) :
    greedyCoveredFaces c = basicCoveredFaces c := by
  apply Multiset.ext.mpr
  rintro ⟨p, f⟩
  unfold greedyCoveredFaces basicCoveredFaces
  rw [Multiset.coe_count, Multiset.coe_count,
    list_count_eq_countP_dec, list_count_eq_countP_dec,
    FVoxelGreedyMesher.countP_flatMap_blocks,
    FVoxelGreedyMesher.greedy_cover_count, List.countP_map,
    FVoxelGreedyMesher.countP_congr_mem _ _
      (fun r => decide (r.1 = p ∧ r.2.1 = f))
      (by intro r hr; simp [Prod.ext_iff]),
    basic_cover_count]

/-- C1 (amended): the greedy mesh covers exactly the visible surface of
the basic mesh: the multiset of covered voxel faces (equivalently, of
their face-centres) of the greedy pipeline equals that of the basic
mesher, and every §4.2-visible voxel face is covered by exactly one
greedy quad (hence by the two coplanar triangles of exactly one quad),
while an invisible face is covered by none. -/
theorem greedy_basic_surface_equivalence (c : FVoxelChunkData) :
    greedyCoveredFaces c = basicCoveredFaces c ∧
    ∀ (p : FIntVector) (f : EVoxelFace),
      (FVoxelGreedyMesher.GenerateGreedyMesh c).countP
          (fun q => decide (q.Face = f ∧ FVoxelGreedyMesher.QuadCovers q p)) =
        if FVoxelGreedyMesher.IsFaceVisible c p.X p.Y p.Z f = true
          then 1 else 0 :=
  ⟨covered_faces_eq c, FVoxelGreedyMesher.greedy_cover_count c⟩

theorem flatMap_support_single {α β : Type} [DecidableEq α] (l : List α)
    (g : α → List β) (a0 : α) (hmem : a0 ∈ l) (hone : l.count a0 = 1)
    (hz : ∀ a ∈ l, a ≠ a0 → g a = []) : l.flatMap g = g a0 := by
  induction l with
  | nil => cases hmem
  | cons a t ih =>
    rw [List.flatMap_cons]
    by_cases ha : a = a0
    · subst ha
      have hcz : t.count a = 0 := by
        rw [List.count_cons_self] at hone
        omega
      have hnot : a ∉ t := by
        intro hcon
        have := List.count_pos_iff.mpr hcon
        omega
      have ht : t.flatMap g = [] := by
        apply List.flatMap_eq_nil_iff.mpr
        intro b hb
        by_cases hb0 : b = a
        · exact absurd (hb0 ▸ hb) hnot
        · exact hz b (by simp [hb]) hb0
      rw [ht, List.append_nil]
    · have hz0 : g a = [] := hz a (by simp) ha
      have hmem' : a0 ∈ t := by
        rcases List.mem_cons.mp hmem with h | h
        · exact absurd h.symm ha
        · exact h
      have hone' : t.count a0 = 1 := by
        rw [List.count_cons] at hone
        simpa [ha] using hone
      rw [hz0, List.nil_append]
      exact ih hmem' hone' fun b hb hb0 => hz b (by simp [hb]) hb0

namespace FVoxelGreedyMesher

/-- If no scanned cell is visible, the extraction loop changes nothing. -/
theorem extractLoop_no_visible (f : EVoxelFace) (s : Int) (dX dY : Nat) :
    ∀ (cells : List (Nat × Nat)) (mask : Nat → Nat → FFaceMask)
      (acc : List FGreedyQuad),
      (∀ c ∈ cells, (mask c.1 c.2).bVisible = false) →
      extractLoop f s dX dY cells mask acc = (mask, acc) := by
  intro cells
  induction cells with
  | nil => intro mask acc h; rfl
  | cons c rest ih =>
    intro mask acc h
    obtain ⟨u, v⟩ := c
    rw [extractLoop]
    rw [if_neg (by simp [h (u, v) (by simp)])]
    exact ih mask acc fun c hc => h c (by simp [hc])

/-- Extraction from a mask with no visible in-bounds cell yields no
quads. -/
theorem extract_empty (M0 : Nat → Nat → FFaceMask) (dX dY : Nat)
    (f : EVoxelFace) (s : Int)
    (h : ∀ u < dX, ∀ v < dY, (M0 u v).bVisible = false) :
    ExtractQuadsFromMask M0 dX dY f s = [] := by
  unfold ExtractQuadsFromMask
  rw [extractLoop_no_visible f s dX dY (scanCells dX dY) M0 []
    (by
      intro c hc
      obtain ⟨u, v⟩ := c
      obtain ⟨hu, hv⟩ := (mem_scanCells dX dY u v).mp hc
      exact h u hu v hv)]

/-- Extraction from a uniformly visible single-material mask emits
exactly one maximal quad covering the whole mask. -/
theorem extract_full (M0 : Nat → Nat → FFaceMask) (dX dY : Nat)
    (f : EVoxelFace) (s : Int) (m : EVoxelMaterial)
    (hall2 : ∀ u < dX, ∀ v < dY, M0 u v = ⟨m, true⟩)
    (hdX : 0 < dX) (hdY : 0 < dY) :
    ExtractQuadsFromMask M0 dX dY f s =
      [⟨MaskToVoxelPosition 0 0 s f, ⟨(dX : Int), (dY : Int), 1⟩, f, m⟩] := by
  obtain ⟨l, rfl⟩ : ∃ l, dX = l + 1 := ⟨dX - 1, by omega⟩
  obtain ⟨k, rfl⟩ : ∃ k, dY = k + 1 := ⟨dY - 1, by omega⟩
  obtain ⟨t, ht⟩ : ∃ t, scanCells (l + 1) (k + 1) = (0, 0) :: t := by
    unfold scanCells
    rw [List.range_succ_eq_map k, List.flatMap_cons, List.range_succ_eq_map l,
      List.map_cons, List.cons_append]
    exact ⟨_, rfl⟩
  have htmem : ∀ c ∈ t, c.1 < l + 1 ∧ c.2 < k + 1 := by
    intro c hc
    obtain ⟨u, v⟩ := c
    have : (u, v) ∈ scanCells (l + 1) (k + 1) := by
      rw [ht]
      exact List.mem_cons_of_mem _ hc
    exact (mem_scanCells _ _ u v).mp this
  have hM00 : M0 0 0 = ⟨m, true⟩ := hall2 0 (by omega) 0 (by omega)
  have hcellok : ∀ u < l + 1, ∀ v < k + 1, cellOk M0 m u v = true := by
    intro u hu v hv
    unfold cellOk
    rw [hall2 u hu v hv]
    simp
  unfold ExtractQuadsFromMask
  rw [ht, extractLoop]
  rw [if_pos (by rw [hM00])]
  rw [hM00]
  simp only
  rw [extendQuad_full M0 (l + 1) (k + 1) m hcellok (by omega) (by omega)]
  simp only
  rw [extractLoop_no_visible f s (l + 1) (k + 1) t _ _
    (by
      intro c hc
      obtain ⟨u, v⟩ := c
      obtain ⟨hu, hv⟩ := htmem (u, v) hc
      unfold MarkQuadProcessed
      rw [if_pos (by omega)])]
  simp

/-- The single slice index at which faces of an all-solid chunk are
visible for each face direction. -/
def boundarySlice (c : FVoxelChunkData) : EVoxelFace → Nat
  | .Front => (c.ChunkSize.Y - 1).toNat
  | .Back => 0
  | .Right => (c.ChunkSize.X - 1).toNat
  | .Left => 0
  | .Top => (c.ChunkSize.Z - 1).toNat
  | .Bottom => 0

/-- In an all-solid chunk, an in-range face is visible exactly when its
neighbour coordinate is out of range. -/
theorem uniform_visible (c : FVoxelChunkData) (m : EVoxelMaterial)
    (hm : m ≠ EVoxelMaterial.Air)
    (hall : ∀ x y z : Int, c.InRange x y z → c.GetVoxel x y z = ⟨m⟩)
    (x y z : Int) (f : EVoxelFace) (hIR : c.InRange x y z) :
    IsFaceVisible c x y z f =
      ! decide (c.InRange (x + (GetFaceDirection f).X)
        (y + (GetFaceDirection f).Y) (z + (GetFaceDirection f).Z)) := by
  unfold IsFaceVisible GetNeighborVoxel
  rw [hall x y z hIR]
  have hcur : (⟨m⟩ : FVoxel).IsAir = false := by simp [FVoxel.IsAir, hm]
  simp only [hcur, Bool.false_eq_true, if_false]
  by_cases hn : c.InRange (x + (GetFaceDirection f).X)
      (y + (GetFaceDirection f).Y) (z + (GetFaceDirection f).Z)
  · rw [hall _ _ _ hn]
    simp [FVoxel.IsAir, FVoxel.IsTransparent, hm, hn]
  · rw [getVoxel_oob c _ _ _ hn]
    simp [airVoxel, FVoxel.IsAir, hn]

/-- The face mask of an all-solid chunk: uniform material, visible
exactly on the boundary slice. -/
theorem uniform_mask_eq (c : FVoxelChunkData) (m : EVoxelMaterial)
    (hm : m ≠ EVoxelMaterial.Air)
    (hall : ∀ x y z : Int, c.InRange x y z → c.GetVoxel x y z = ⟨m⟩)
    (f : EVoxelFace) (s u v : Nat)
    (hs : s < sliceCount c f) (hu : u < dimU c f) (hv : v < dimV c f) :
    CreateFaceMask c f (s : Int) u v =
      ⟨m, decide (s = boundarySlice c f)⟩ := by
  have hcur : (⟨m⟩ : FVoxel).IsAir = false := by simp [FVoxel.IsAir, hm]
  cases f <;>
    simp only [sliceCount, dimU, dimV, primaryAxis, uAxis, vAxis, GetFaceAxes,
      FVoxelChunkSize.ToIntVector, FIntVector.nth] at hs hu hv <;>
    simp only [CreateFaceMask, MaskToVoxelPosition] <;>
    [(have hIR : c.InRange (u : Int) (s : Int) (v : Int) := by
        unfold FVoxelChunkData.InRange; omega);
     (have hIR : c.InRange (u : Int) (s : Int) (v : Int) := by
        unfold FVoxelChunkData.InRange; omega);
     (have hIR : c.InRange (s : Int) (u : Int) (v : Int) := by
        unfold FVoxelChunkData.InRange; omega);
     (have hIR : c.InRange (s : Int) (u : Int) (v : Int) := by
        unfold FVoxelChunkData.InRange; omega);
     (have hIR : c.InRange (u : Int) (v : Int) (s : Int) := by
        unfold FVoxelChunkData.InRange; omega);
     (have hIR : c.InRange (u : Int) (v : Int) (s : Int) := by
        unfold FVoxelChunkData.InRange; omega)] <;>
    rw [hall _ _ _ hIR] <;>
    rw [hcur] <;>
    simp only [Bool.false_eq_true, if_false] <;>
    rw [uniform_visible c m hm hall _ _ _ _ hIR] <;>
    simp only [GetFaceDirection, add_zero] <;>
    [(by_cases hsb : s = boundarySlice c EVoxelFace.Front);
     (by_cases hsb : s = boundarySlice c EVoxelFace.Back);
     (by_cases hsb : s = boundarySlice c EVoxelFace.Right);
     (by_cases hsb : s = boundarySlice c EVoxelFace.Left);
     (by_cases hsb : s = boundarySlice c EVoxelFace.Top);
     (by_cases hsb : s = boundarySlice c EVoxelFace.Bottom)] <;>
    simp only [boundarySlice] at hsb ⊢ <;>
    [(have hnb : ¬ c.InRange (u : Int) ((s : Int) + 1) (v : Int) := by
        unfold FVoxelChunkData.InRange; omega);
     (have hnb : c.InRange (u : Int) ((s : Int) + 1) (v : Int) := by
        unfold FVoxelChunkData.InRange; omega);
     (have hnb : ¬ c.InRange (u : Int) ((s : Int) + -1) (v : Int) := by
        unfold FVoxelChunkData.InRange; omega);
     (have hnb : c.InRange (u : Int) ((s : Int) + -1) (v : Int) := by
        unfold FVoxelChunkData.InRange; omega);
     (have hnb : ¬ c.InRange ((s : Int) + 1) (u : Int) (v : Int) := by
        unfold FVoxelChunkData.InRange; omega);
     (have hnb : c.InRange ((s : Int) + 1) (u : Int) (v : Int) := by
        unfold FVoxelChunkData.InRange; omega);
     (have hnb : ¬ c.InRange ((s : Int) + -1) (u : Int) (v : Int) := by
        unfold FVoxelChunkData.InRange; omega);
     (have hnb : c.InRange ((s : Int) + -1) (u : Int) (v : Int) := by
        unfold FVoxelChunkData.InRange; omega);
     (have hnb : ¬ c.InRange (u : Int) (v : Int) ((s : Int) + 1) := by
        unfold FVoxelChunkData.InRange; omega);
     (have hnb : c.InRange (u : Int) (v : Int) ((s : Int) + 1) := by
        unfold FVoxelChunkData.InRange; omega);
     (have hnb : ¬ c.InRange (u : Int) (v : Int) ((s : Int) + -1) := by
        unfold FVoxelChunkData.InRange; omega);
     (have hnb : c.InRange (u : Int) (v : Int) ((s : Int) + -1) := by
        unfold FVoxelChunkData.InRange; omega)] <;>
    (first
      | rw [decide_eq_false hnb, decide_eq_true hsb]
      | rw [decide_eq_true hnb, decide_eq_false hsb]) <;>
    rfl

/-- On an all-solid chunk, each face direction contributes exactly one
quad: the single maximal rectangle of the boundary slice. -/
theorem uniform_processFace (c : FVoxelChunkData) (m : EVoxelMaterial)
    (hm : m ≠ EVoxelMaterial.Air)
    (hall : ∀ x y z : Int, c.InRange x y z → c.GetVoxel x y z = ⟨m⟩)
    (f : EVoxelFace) (hdU : 0 < dimU c f) (hdV : 0 < dimV c f)
    (hS : 0 < sliceCount c f) :
    ProcessFaceDirection c f =
      [⟨MaskToVoxelPosition 0 0 ((boundarySlice c f : Nat) : Int) f,
        ⟨((dimU c f : Nat) : Int), ((dimV c f : Nat) : Int), 1⟩, f, m⟩] := by
  rw [processFaceDirection_eq]
  have hbs : boundarySlice c f < sliceCount c f := by
    cases f <;>
      simp only [boundarySlice, sliceCount, primaryAxis, GetFaceAxes,
        FVoxelChunkSize.ToIntVector, FIntVector.nth] at hS ⊢ <;> omega
  have hb : boundarySlice c f ∈ List.range (sliceCount c f) :=
    List.mem_range.mpr hbs
  have hz : ∀ s ∈ List.range (sliceCount c f), s ≠ boundarySlice c f →
      ExtractQuadsFromMask (CreateFaceMask c f (s : Int)) (dimU c f)
        (dimV c f) f (s : Int) = [] := by
    intro s hs hne
    apply extract_empty
    intro u hu v hv
    rw [uniform_mask_eq c m hm hall f s u v (List.mem_range.mp hs) hu hv]
    simp [hne]
  rw [flatMap_support_single _ _ _ hb
    (List.count_eq_one_of_mem (List.nodup_range _) hb) hz]
  exact extract_full _ _ _ _ _ m
    (fun u hu v hv => by
      rw [uniform_mask_eq c m hm hall f (boundarySlice c f) u v hbs hu hv]
      simp)
    hdU hdV

/-- A quad's cell enumeration has exactly `Size.X * Size.Y` entries. -/
theorem quadCellList_length (q : FGreedyQuad) :
    (quadCellList q).length = q.Size.X.toNat * q.Size.Y.toNat := by
  unfold quadCellList
  simp only [List.length_flatMap, Function.comp_def, List.length_map,
    List.length_range, List.map_const', List.sum_replicate, smul_eq_mul]

end FVoxelGreedyMesher

/-- Shared helper: on an all-solid chunk of positive dimensions,
`GenerateGreedyMesh` emits exactly the six maximal boundary quads, in
face-id order. -/
theorem generateGreedyMesh_all_solid (c : FVoxelChunkData) (m : EVoxelMaterial)
    (hm : m ≠ EVoxelMaterial.Air)
    (hall : ∀ x y z : Int, c.InRange x y z → c.GetVoxel x y z = ⟨m⟩)
    (hX : 0 < c.ChunkSize.X) (hY : 0 < c.ChunkSize.Y)
    (hZ : 0 < c.ChunkSize.Z) :
    FVoxelGreedyMesher.GenerateGreedyMesh c =
      [⟨⟨0, c.ChunkSize.Y - 1, 0⟩, ⟨c.ChunkSize.X, c.ChunkSize.Z, 1⟩,
          EVoxelFace.Front, m⟩,
        ⟨⟨0, 0, 0⟩, ⟨c.ChunkSize.X, c.ChunkSize.Z, 1⟩, EVoxelFace.Back, m⟩,
        ⟨⟨c.ChunkSize.X - 1, 0, 0⟩, ⟨c.ChunkSize.Y, c.ChunkSize.Z, 1⟩,
          EVoxelFace.Right, m⟩,
        ⟨⟨0, 0, 0⟩, ⟨c.ChunkSize.Y, c.ChunkSize.Z, 1⟩, EVoxelFace.Left, m⟩,
        ⟨⟨0, 0, c.ChunkSize.Z - 1⟩, ⟨c.ChunkSize.X, c.ChunkSize.Y, 1⟩,
          EVoxelFace.Top, m⟩,
        ⟨⟨0, 0, 0⟩, ⟨c.ChunkSize.X, c.ChunkSize.Y, 1⟩,
          EVoxelFace.Bottom, m⟩] := by
  have eX : ((c.ChunkSize.X.toNat : Nat) : Int) = c.ChunkSize.X :=
    Int.toNat_of_nonneg (by omega)
  have eY : ((c.ChunkSize.Y.toNat : Nat) : Int) = c.ChunkSize.Y :=
    Int.toNat_of_nonneg (by omega)
  have eZ : ((c.ChunkSize.Z.toNat : Nat) : Int) = c.ChunkSize.Z :=
    Int.toNat_of_nonneg (by omega)
  have eX1 : (((c.ChunkSize.X - 1).toNat : Nat) : Int) = c.ChunkSize.X - 1 :=
    Int.toNat_of_nonneg (by omega)
  have eY1 : (((c.ChunkSize.Y - 1).toNat : Nat) : Int) = c.ChunkSize.Y - 1 :=
    Int.toNat_of_nonneg (by omega)
  have eZ1 : (((c.ChunkSize.Z - 1).toNat : Nat) : Int) = c.ChunkSize.Z - 1 :=
    Int.toNat_of_nonneg (by omega)
  have hpos : ∀ f : EVoxelFace, 0 < FVoxelGreedyMesher.dimU c f ∧
      0 < FVoxelGreedyMesher.dimV c f ∧
      0 < FVoxelGreedyMesher.sliceCount c f := by
    intro f
    cases f <;>
      simp only [FVoxelGreedyMesher.dimU, FVoxelGreedyMesher.dimV,
        FVoxelGreedyMesher.sliceCount, FVoxelGreedyMesher.uAxis,
        FVoxelGreedyMesher.vAxis, FVoxelGreedyMesher.primaryAxis,
        FVoxelGreedyMesher.GetFaceAxes, FVoxelChunkSize.ToIntVector,
        FIntVector.nth] <;> omega
  unfold FVoxelGreedyMesher.GenerateGreedyMesh allFaces
  simp only [List.flatMap_cons, List.flatMap_nil, List.append_nil]
  rw [FVoxelGreedyMesher.uniform_processFace c m hm hall EVoxelFace.Front
      (hpos _).1 (hpos _).2.1 (hpos _).2.2,
    FVoxelGreedyMesher.uniform_processFace c m hm hall EVoxelFace.Back
      (hpos _).1 (hpos _).2.1 (hpos _).2.2,
    FVoxelGreedyMesher.uniform_processFace c m hm hall EVoxelFace.Right
      (hpos _).1 (hpos _).2.1 (hpos _).2.2,
    FVoxelGreedyMesher.uniform_processFace c m hm hall EVoxelFace.Left
      (hpos _).1 (hpos _).2.1 (hpos _).2.2,
    FVoxelGreedyMesher.uniform_processFace c m hm hall EVoxelFace.Top
      (hpos _).1 (hpos _).2.1 (hpos _).2.2,
    FVoxelGreedyMesher.uniform_processFace c m hm hall EVoxelFace.Bottom
      (hpos _).1 (hpos _).2.1 (hpos _).2.2]
  simp only [FVoxelGreedyMesher.MaskToVoxelPosition,
    FVoxelGreedyMesher.boundarySlice, FVoxelGreedyMesher.dimU,
    FVoxelGreedyMesher.dimV, FVoxelGreedyMesher.uAxis,
    FVoxelGreedyMesher.vAxis, FVoxelGreedyMesher.GetFaceAxes,
    FVoxelChunkSize.ToIntVector, FIntVector.nth, List.cons_append,
    List.nil_append, Nat.cast_zero, eX, eY, eZ, eX1, eY1, eZ1]

/-- C10: greedy coalescing minimality on an all-solid chunk.  For a
chunk of positive dimensions `X × Y × Z` in which every in-range voxel
holds one fixed non-`Air` material, `GenerateGreedyMesh` emits exactly
the six maximal quads — one per face direction in face-id order, each a
single rectangle covering the whole outer face — while the basic mesher
emits exactly `2·(X·Y + X·Z + Y·Z)` quads (one per visible voxel face)
on the same input. -/
theorem greedy_all_solid_six_quads (c : FVoxelChunkData) (m : EVoxelMaterial)
    (hm : m ≠ EVoxelMaterial.Air)
    (hall : ∀ x y z : Int, c.InRange x y z → c.GetVoxel x y z = ⟨m⟩)
    (hX : 0 < c.ChunkSize.X) (hY : 0 < c.ChunkSize.Y)
    (hZ : 0 < c.ChunkSize.Z) :
    FVoxelGreedyMesher.GenerateGreedyMesh c =
      [⟨⟨0, c.ChunkSize.Y - 1, 0⟩, ⟨c.ChunkSize.X, c.ChunkSize.Z, 1⟩,
          EVoxelFace.Front, m⟩,
        ⟨⟨0, 0, 0⟩, ⟨c.ChunkSize.X, c.ChunkSize.Z, 1⟩, EVoxelFace.Back, m⟩,
        ⟨⟨c.ChunkSize.X - 1, 0, 0⟩, ⟨c.ChunkSize.Y, c.ChunkSize.Z, 1⟩,
          EVoxelFace.Right, m⟩,
        ⟨⟨0, 0, 0⟩, ⟨c.ChunkSize.Y, c.ChunkSize.Z, 1⟩, EVoxelFace.Left, m⟩,
        ⟨⟨0, 0, c.ChunkSize.Z - 1⟩, ⟨c.ChunkSize.X, c.ChunkSize.Y, 1⟩,
          EVoxelFace.Top, m⟩,
        ⟨⟨0, 0, 0⟩, ⟨c.ChunkSize.X, c.ChunkSize.Y, 1⟩,
          EVoxelFace.Bottom, m⟩] ∧
    ((FVoxelMeshGenerator.basicVisibleFaces c).length : Int) =
      2 * (c.ChunkSize.X * c.ChunkSize.Y + c.ChunkSize.X * c.ChunkSize.Z +
        c.ChunkSize.Y * c.ChunkSize.Z) := by
  have eX : ((c.ChunkSize.X.toNat : Nat) : Int) = c.ChunkSize.X :=
    Int.toNat_of_nonneg (by omega)
  have eY : ((c.ChunkSize.Y.toNat : Nat) : Int) = c.ChunkSize.Y :=
    Int.toNat_of_nonneg (by omega)
  have eZ : ((c.ChunkSize.Z.toNat : Nat) : Int) = c.ChunkSize.Z :=
    Int.toNat_of_nonneg (by omega)
  have hgreedy := generateGreedyMesh_all_solid c m hm hall hX hY hZ
  refine ⟨hgreedy, ?_⟩
  have hmeq := congrArg Multiset.card (covered_faces_eq c)
  unfold greedyCoveredFaces basicCoveredFaces at hmeq
  rw [Multiset.coe_card, Multiset.coe_card, List.length_map] at hmeq
  rw [← hmeq, hgreedy]
  simp only [List.flatMap_cons, List.flatMap_nil, List.length_append,
    List.length_nil, List.length_map, FVoxelGreedyMesher.quadCellList_length]
  push_cast
  rw [eX, eY, eZ]
  ring

/-- A chunk whose voxel array is `replicate` of one voxel reads that
voxel at every in-range coordinate. -/
theorem getVoxel_replicate (v : FVoxel) (n : Nat) (cs : FVoxelChunkSize)
    (cp : FIntVector) (b : Bool)
    (hlen : (n : Int) = cs.GetVoxelCount) :
    ∀ x y z : Int,
      (⟨List.replicate n v, cs, cp, b⟩ : FVoxelChunkData).InRange x y z →
      (⟨List.replicate n v, cs, cp, b⟩ : FVoxelChunkData).GetVoxel x y z = v := by
  intro x y z h
  have hidx := getVoxel_index_lt_length
    (⟨List.replicate n v, cs, cp, b⟩ : FVoxelChunkData) x y z (by simpa using hlen) h
  unfold FVoxelChunkData.GetVoxel
  rw [if_pos h]
  rw [List.getD_eq_getElem?_getD, List.getElem?_replicate,
    if_pos (by simpa using hidx)]
  rfl

/-- A 2×2×2 chunk filled with `Stone`. -/
def allStoneChunk2 : FVoxelChunkData :=
  ⟨List.replicate 8 ⟨EVoxelMaterial.Stone⟩, ⟨2, 2, 2⟩, ⟨0, 0, 0⟩, false⟩

/-- Witness for C10 at a concrete input: on the 2×2×2 all-Stone chunk
the greedy mesher emits the six maximal 2×2 quads and the basic mesher
emits `24 = 2·(4+4+4)` quads. -/
theorem greedy_all_solid_six_quads_witness :
    FVoxelGreedyMesher.GenerateGreedyMesh allStoneChunk2 =
      [⟨⟨0, 1, 0⟩, ⟨2, 2, 1⟩, EVoxelFace.Front, EVoxelMaterial.Stone⟩,
        ⟨⟨0, 0, 0⟩, ⟨2, 2, 1⟩, EVoxelFace.Back, EVoxelMaterial.Stone⟩,
        ⟨⟨1, 0, 0⟩, ⟨2, 2, 1⟩, EVoxelFace.Right, EVoxelMaterial.Stone⟩,
        ⟨⟨0, 0, 0⟩, ⟨2, 2, 1⟩, EVoxelFace.Left, EVoxelMaterial.Stone⟩,
        ⟨⟨0, 0, 1⟩, ⟨2, 2, 1⟩, EVoxelFace.Top, EVoxelMaterial.Stone⟩,
        ⟨⟨0, 0, 0⟩, ⟨2, 2, 1⟩, EVoxelFace.Bottom, EVoxelMaterial.Stone⟩] ∧
    ((FVoxelMeshGenerator.basicVisibleFaces allStoneChunk2).length : Int) =
      24 := by
  have hallW : ∀ x y z : Int, allStoneChunk2.InRange x y z →
      allStoneChunk2.GetVoxel x y z = ⟨EVoxelMaterial.Stone⟩ :=
    getVoxel_replicate ⟨EVoxelMaterial.Stone⟩ 8 ⟨2, 2, 2⟩ ⟨0, 0, 0⟩ false
      (by decide)
  simpa [allStoneChunk2] using greedy_all_solid_six_quads allStoneChunk2
    EVoxelMaterial.Stone (by decide) hallW (by decide) (by decide) (by decide)

/-! ### Mesh data and quad-to-mesh conversion

The conversion code works in float world coordinates, but every
coordinate it produces is an integer multiple of `VoxelSize`
(`25.0f` at every call site), exactly representable in `float` for all
in-chunk magnitudes; positions are therefore carried as exact integers
(`FIntVector`, in world units) and `VoxelSize` is an integer parameter.
`UV0`, tangents, vertex colors and the cached
`VertexCount`/`TriangleCount` statistics are appended alongside the
modelled arrays in the source and are not referenced by any claim, so
they are not modelled. -/

instance : Add FIntVector := ⟨fun a b => ⟨a.X + b.X, a.Y + b.Y, a.Z + b.Z⟩⟩

theorem FIntVector.add_def (a b : FIntVector) :
    a + b = ⟨a.X + b.X, a.Y + b.Y, a.Z + b.Z⟩ := rfl

/-- Componentwise integer scaling (`FVector(IntVec) * Scale`). -/
def FIntVector.scale (k : Int) (v : FIntVector) : FIntVector :=
  ⟨k * v.X, k * v.Y, k * v.Z⟩

/-- `FVoxelMeshData` (VoxelTypes.h): the parallel vertex arrays and the
triangle index list; `MaterialSections` is the `TMap` as an association
list in insertion order. -/
structure FVoxelMeshData where
  Vertices : List FIntVector
  Normals : List FIntVector
  Triangles : List Int
  MaterialSections : List (EVoxelMaterial × Int)
deriving DecidableEq, Repr

/-- `FVoxelMeshData::Clear`ed mesh data. -/
def emptyMeshData : FVoxelMeshData := ⟨[], [], [], []⟩

/-- One quad's triangle-index block starting at vertex index `S`:
`(S,S+1,S+2)` and `(S,S+2,S+3)`. -/
def triBlock (S : Int) : List Int := [S, S + 1, S + 2, S, S + 2, S + 3]

namespace FVoxelMeshGenerator

/-- `FVoxelMeshGenerator::AddVertex` (VoxelMeshGenerator.cpp:318-333):
plain appends to the parallel arrays — no lookup, no welding — returning
the new index. -/
def AddVertex (md : FVoxelMeshData) (p n : FIntVector) : FVoxelMeshData :=
  { md with Vertices := md.Vertices ++ [p], Normals := md.Normals ++ [n] }

/-- `FVoxelMeshGenerator::GetOrCreateMaterialSection`
(VoxelMeshGenerator.cpp:470-480); the returned section index is unused
by the modelled callers, so only the map update is kept. -/
def GetOrCreateMaterialSection (ms : List (EVoxelMaterial × Int))
    (m : EVoxelMaterial) : List (EVoxelMaterial × Int) :=
  if (ms.lookup m).isSome then ms else ms ++ [(m, (ms.length : Int))]

/-- `FVoxelMeshGenerator::AddQuad` (VoxelMeshGenerator.cpp:263-316):
four appended vertices, then the triangles `(S,S+1,S+2)`, `(S,S+2,S+3)`
— the same winding for every face. -/
def AddQuad (md : FVoxelMeshData) (v0 v1 v2 v3 n : FIntVector)
    (m : EVoxelMaterial) : FVoxelMeshData :=
  let S : Int := (md.Vertices.length : Int)
  let md4 := AddVertex (AddVertex (AddVertex (AddVertex md v0 n) v1 n) v2 n) v3 n
  { md4 with
    MaterialSections := GetOrCreateMaterialSection md4.MaterialSections m,
    Triangles := md4.Triangles ++ triBlock S }

end FVoxelMeshGenerator

namespace FVoxelGreedyMesher

/-- The four corner positions (world units) computed by
`FVoxelGreedyMesher::ConvertQuadsToMesh` (part_003:304-396):
`BasePos = Position * VoxelSize`, `QuadWorldSize.X/Y = Size.X/Y *
VoxelSize`. -/
def quadCorners (q : FGreedyQuad) (vox : Int) :
    FIntVector × FIntVector × FIntVector × FIntVector :=
  let B := FIntVector.scale vox q.Position
  let wU := q.Size.X * vox
  let wV := q.Size.Y * vox
  match q.Face with
  | .Front =>
    (B + ⟨0, vox, 0⟩, B + ⟨wU, vox, 0⟩, B + ⟨wU, vox, wV⟩, B + ⟨0, vox, wV⟩)
  | .Back =>
    (B + ⟨wU, 0, 0⟩, B + ⟨0, 0, 0⟩, B + ⟨0, 0, wV⟩, B + ⟨wU, 0, wV⟩)
  | .Right =>
    (B + ⟨vox, 0, 0⟩, B + ⟨vox, wU, 0⟩, B + ⟨vox, wU, wV⟩, B + ⟨vox, 0, wV⟩)
  | .Left =>
    (B + ⟨0, wU, 0⟩, B + ⟨0, 0, 0⟩, B + ⟨0, 0, wV⟩, B + ⟨0, wU, wV⟩)
  | .Top =>
    (B + ⟨0, 0, vox⟩, B + ⟨wU, 0, vox⟩, B + ⟨wU, wV, vox⟩, B + ⟨0, wV, vox⟩)
  | .Bottom =>
    (B + ⟨0, wV, 0⟩, B + ⟨wU, wV, 0⟩, B + ⟨wU, 0, 0⟩, B + ⟨0, 0, 0⟩)

/-- `FVoxelGreedyMesher::ConvertQuadsToMesh` (part_003:304-396, the
translation unit the claims cite): `Clear`, then one
`FVoxelMeshGenerator::AddQuad` per quad — this variant performs no
vertex welding. -/
def ConvertQuadsToMesh (quads : List FGreedyQuad) (vox : Int) :
    FVoxelMeshData :=
  quads.foldl
    (fun md q =>
      let c := quadCorners q vox
      FVoxelMeshGenerator.AddQuad md c.1 c.2.1 c.2.2.1 c.2.2.2
        (GetFaceNormal q.Face) q.Material)
    emptyMeshData

/-- `FVertexKey` (VoxelBlueprintLibrary.cpp:772-792): the position
quantized at scale `100`; on integer world coordinates
`RoundToInt(Pos * 100)` is exactly `100 * Pos`. -/
def vertexKey (p : FIntVector) : FIntVector := FIntVector.scale 100 p

/-- The corner table of the welded `ConvertQuadsToMesh` variant
(VoxelBlueprintLibrary.cpp:835-879): `SizeVector[UAxis] = Size.X * vox`
and `SizeVector[VAxis] = Size.Y * vox`, so `Right`/`Left` read the u
extent from `SizeVector.Y` — their corner orders differ from
part_003's table. -/
def weldedCorners (q : FGreedyQuad) (vox : Int) :
    FIntVector × FIntVector × FIntVector × FIntVector :=
  let B := FIntVector.scale vox q.Position
  let wU := q.Size.X * vox
  let wV := q.Size.Y * vox
  match q.Face with
  | .Front =>
    (B + ⟨0, vox, 0⟩, B + ⟨wU, vox, 0⟩, B + ⟨wU, vox, wV⟩, B + ⟨0, vox, wV⟩)
  | .Back =>
    (B + ⟨wU, 0, 0⟩, B + ⟨0, 0, 0⟩, B + ⟨0, 0, wV⟩, B + ⟨wU, 0, wV⟩)
  | .Right =>
    (B + ⟨vox, wU, 0⟩, B + ⟨vox, 0, 0⟩, B + ⟨vox, 0, wV⟩, B + ⟨vox, wU, wV⟩)
  | .Left =>
    (B + ⟨0, 0, 0⟩, B + ⟨0, wU, 0⟩, B + ⟨0, wU, wV⟩, B + ⟨0, 0, wV⟩)
  | .Top =>
    (B + ⟨0, 0, vox⟩, B + ⟨wU, 0, vox⟩, B + ⟨wU, wV, vox⟩, B + ⟨0, wV, vox⟩)
  | .Bottom =>
    (B + ⟨0, wV, 0⟩, B + ⟨wU, wV, 0⟩, B + ⟨wU, 0, 0⟩, B + ⟨0, 0, 0⟩)

/-- One corner of the welded conversion
(VoxelBlueprintLibrary.cpp:913-975): look the quantized key up in the
vertex map, reusing the existing index when present and appending a
fresh vertex (and map entry) otherwise. -/
def weldedAddCorner (st : FVoxelMeshData × List (FIntVector × Int))
    (p n : FIntVector) : (FVoxelMeshData × List (FIntVector × Int)) × Int :=
  match st.2.lookup (vertexKey p) with
  | some i => (st, i)
  | none =>
    let idx : Int := (st.1.Vertices.length : Int)
    (({ st.1 with
        Vertices := st.1.Vertices ++ [p]
        Normals := st.1.Normals ++ [n] },
      (vertexKey p, idx) :: st.2), idx)

/-- One quad of the welded conversion: four (possibly shared) corner
indices, then the two triangles — `(0,3,1)`, `(1,3,2)` of the local
corners for `Top` (+Z) and `(0,1,2)`, `(0,2,3)` for every other face
(VoxelBlueprintLibrary.cpp:1004-1041). -/
def weldedQuadStep (st : FVoxelMeshData × List (FIntVector × Int))
    (q : FGreedyQuad) (vox : Int) :
    FVoxelMeshData × List (FIntVector × Int) :=
  let c := weldedCorners q vox
  let n := GetFaceNormal q.Face
  let r0 := weldedAddCorner st c.1 n
  let r1 := weldedAddCorner r0.1 c.2.1 n
  let r2 := weldedAddCorner r1.1 c.2.2.1 n
  let r3 := weldedAddCorner r2.1 c.2.2.2 n
  let md := r3.1.1
  let tris := if q.Face = EVoxelFace.Top
    then [r0.2, r3.2, r1.2, r1.2, r3.2, r2.2]
    else [r0.2, r1.2, r2.2, r0.2, r2.2, r3.2]
  ({ md with
      Triangles := md.Triangles ++ tris
      MaterialSections :=
        FVoxelMeshGenerator.GetOrCreateMaterialSection md.MaterialSections
          q.Material },
    r3.1.2)

/-- The welded `FVoxelGreedyMesher::ConvertQuadsToMesh` variant
(VoxelBlueprintLibrary.cpp:794-1100): position-keyed vertex
deduplication through `VertexMap`, inverse winding for `Top`. -/
def ConvertQuadsToMeshWelded (quads : List FGreedyQuad) (vox : Int) :
    FVoxelMeshData :=
  (quads.foldl (fun st q => weldedQuadStep st q vox) (emptyMeshData, [])).1

/-- The vertex-array length and triangle list of the part_003 conversion
fold, from an arbitrary starting mesh. -/
theorem convert_go (vox : Int) (quads : List FGreedyQuad) :
    ∀ md : FVoxelMeshData,
      ((quads.foldl (fun md q =>
          let c := quadCorners q vox
          FVoxelMeshGenerator.AddQuad md c.1 c.2.1 c.2.2.1 c.2.2.2
            (GetFaceNormal q.Face) q.Material) md).Vertices.length
        = md.Vertices.length + 4 * quads.length) ∧
      ((quads.foldl (fun md q =>
          let c := quadCorners q vox
          FVoxelMeshGenerator.AddQuad md c.1 c.2.1 c.2.2.1 c.2.2.2
            (GetFaceNormal q.Face) q.Material) md).Triangles
        = md.Triangles ++ (List.range quads.length).flatMap
            fun i => triBlock ((md.Vertices.length : Int) + 4 * (i : Int))) := by
  induction quads with
  | nil => intro md; simp
  | cons q t ih =>
    intro md
    rw [List.foldl_cons]
    obtain ⟨ihl, iht⟩ := ih (FVoxelMeshGenerator.AddQuad md (quadCorners q vox).1
      (quadCorners q vox).2.1 (quadCorners q vox).2.2.1 (quadCorners q vox).2.2.2
      (GetFaceNormal q.Face) q.Material)
    have h1 : (FVoxelMeshGenerator.AddQuad md (quadCorners q vox).1
        (quadCorners q vox).2.1 (quadCorners q vox).2.2.1
        (quadCorners q vox).2.2.2 (GetFaceNormal q.Face)
        q.Material).Vertices.length = md.Vertices.length + 4 := by
      simp [FVoxelMeshGenerator.AddQuad, FVoxelMeshGenerator.AddVertex]
    have h2 : (FVoxelMeshGenerator.AddQuad md (quadCorners q vox).1
        (quadCorners q vox).2.1 (quadCorners q vox).2.2.1
        (quadCorners q vox).2.2.2 (GetFaceNormal q.Face)
        q.Material).Triangles =
        md.Triangles ++ triBlock (md.Vertices.length : Int) := by
      simp [FVoxelMeshGenerator.AddQuad, FVoxelMeshGenerator.AddVertex]
    constructor
    · rw [ihl, h1, List.length_cons]
      ring
    · rw [iht, h2, List.append_assoc]
      congr 1
      rw [List.length_cons, List.range_succ_eq_map, List.flatMap_cons,
        List.flatMap_map]
      simp only [h1, triBlock, Function.comp_def]
      push_cast
      ring_nf
      refine congrArg _ (congrArg _ (funext fun i => ?_))
      simp only [List.cons.injEq, and_true]
      omega

/-- The six welding keys of a quad's four corners are pairwise distinct
when the quad has positive size (returned as the `==` tests the vertex
map performs, in lookup order). -/
theorem weldedCorners_keys (q : FGreedyQuad) (vox : Int) (hv : 0 < vox)
    (hx : 0 < q.Size.X) (hy : 0 < q.Size.Y) :
    ((vertexKey (weldedCorners q vox).2.1 ==
      vertexKey (weldedCorners q vox).1) = false) ∧
    ((vertexKey (weldedCorners q vox).2.2.1 ==
      vertexKey (weldedCorners q vox).2.1) = false) ∧
    ((vertexKey (weldedCorners q vox).2.2.1 ==
      vertexKey (weldedCorners q vox).1) = false) ∧
    ((vertexKey (weldedCorners q vox).2.2.2 ==
      vertexKey (weldedCorners q vox).2.2.1) = false) ∧
    ((vertexKey (weldedCorners q vox).2.2.2 ==
      vertexKey (weldedCorners q vox).2.1) = false) ∧
    ((vertexKey (weldedCorners q vox).2.2.2 ==
      vertexKey (weldedCorners q vox).1) = false) := by
  obtain ⟨P, S, f, mm⟩ := q
  have hU : 0 < S.X * vox := mul_pos hx hv
  have hV : 0 < S.Y * vox := mul_pos hy hv
  cases f <;>
    simp only [weldedCorners, vertexKey, FIntVector.scale,
      FIntVector.add_def] <;>
    refine ⟨?_, ?_, ?_, ?_, ?_, ?_⟩ <;>
    (rw [beq_eq_false_iff_ne]
     simp only [ne_eq, FIntVector.mk.injEq, not_and]
     intro h1 h2 h3
     linarith)

/-- The welded conversion of a single positive-size quad: four fresh
vertices, triangles `(0,3,1),(1,3,2)` for `Top` and `(0,1,2),(0,2,3)`
otherwise. -/
theorem welded_single_quad (q : FGreedyQuad) (vox : Int) (hv : 0 < vox)
    (hx : 0 < q.Size.X) (hy : 0 < q.Size.Y) :
    (ConvertQuadsToMeshWelded [q] vox).Triangles =
      if q.Face = EVoxelFace.Top then [0, 3, 1, 1, 3, 2]
      else [0, 1, 2, 0, 2, 3] := by
  obtain ⟨e10, e21, e20, e32, e31, e30⟩ := weldedCorners_keys q vox hv hx hy
  unfold ConvertQuadsToMeshWelded
  rw [List.foldl_cons, List.foldl_nil]
  unfold weldedQuadStep weldedAddCorner
  simp [List.lookup, e10, e21, e20, e32, e31, e30, emptyMeshData]

/-- The invariant the welded conversion maintains: stored vertices have
pairwise distinct welding keys, and every stored vertex's key is present
in the vertex map. -/
def WeldInv (md : FVoxelMeshData) (vm : List (FIntVector × Int)) : Prop :=
  md.Vertices.Pairwise (fun a b => vertexKey a ≠ vertexKey b) ∧
  ∀ v ∈ md.Vertices, (vm.lookup (vertexKey v)).isSome

theorem weldedAddCorner_inv (st : FVoxelMeshData × List (FIntVector × Int))
    (p n : FIntVector) (h : WeldInv st.1 st.2) :
    WeldInv (weldedAddCorner st p n).1.1 (weldedAddCorner st p n).1.2 := by
  unfold weldedAddCorner
  cases hl : st.2.lookup (vertexKey p) with
  | some i => simpa using h
  | none =>
    simp only []
    constructor
    · rw [List.pairwise_append]
      refine ⟨h.1, List.pairwise_singleton _ _, ?_⟩
      intro a ha b hb
      have hb' : b = p := by simpa using hb
      subst hb'
      intro hk
      have hsome := h.2 a ha
      rw [hk, hl] at hsome
      simp at hsome
    · intro v hv
      rcases List.mem_append.mp hv with hvo | hvp
      · by_cases hk : vertexKey v = vertexKey p
        · simp [List.lookup, hk]
        · simp only [List.lookup, beq_eq_false_iff_ne.mpr hk]
          exact h.2 v hvo
      · have : v = p := by simpa using hvp
        subst this
        simp [List.lookup]

theorem weldedQuadStep_inv (st : FVoxelMeshData × List (FIntVector × Int))
    (q : FGreedyQuad) (vox : Int) (h : WeldInv st.1 st.2) :
    WeldInv (weldedQuadStep st q vox).1 (weldedQuadStep st q vox).2 := by
  have h0 := weldedAddCorner_inv st (weldedCorners q vox).1
    (GetFaceNormal q.Face) h
  have h1 := weldedAddCorner_inv _ (weldedCorners q vox).2.1
    (GetFaceNormal q.Face) h0
  have h2 := weldedAddCorner_inv _ (weldedCorners q vox).2.2.1
    (GetFaceNormal q.Face) h1
  have h3 := weldedAddCorner_inv _ (weldedCorners q vox).2.2.2
    (GetFaceNormal q.Face) h2
  exact ⟨h3.1, h3.2⟩

theorem welded_fold_inv (vox : Int) (quads : List FGreedyQuad) :
    ∀ st : FVoxelMeshData × List (FIntVector × Int), WeldInv st.1 st.2 →
      WeldInv (quads.foldl (fun st q => weldedQuadStep st q vox) st).1
        (quads.foldl (fun st q => weldedQuadStep st q vox) st).2 := by
  induction quads with
  | nil => intro st h; exact h
  | cons q t ih =>
    intro st h
    rw [List.foldl_cons]
    exact ih _ (weldedQuadStep_inv st q vox h)

end FVoxelGreedyMesher

/-- The `Top` quad of a 1×1×1 `Grass` chunk. -/
def topQuad1 : FVoxelGreedyMesher.FGreedyQuad :=
  ⟨⟨0, 0, 0⟩, ⟨1, 1, 1⟩, EVoxelFace.Top, EVoxelMaterial.Grass⟩

/-- The two `Back`-face quads greedy meshing emits for a 2×1×1 chunk
holding `Stone` at `(0,0,0)` and `Grass` at `(1,0,0)`: the materials
differ, so the rectangles cannot merge. -/
def backPairQuads : List FVoxelGreedyMesher.FGreedyQuad :=
  [⟨⟨0, 0, 0⟩, ⟨1, 1, 1⟩, EVoxelFace.Back, EVoxelMaterial.Stone⟩,
    ⟨⟨1, 0, 0⟩, ⟨1, 1, 1⟩, EVoxelFace.Back, EVoxelMaterial.Grass⟩]

/-- C3 (amended): per-quad triangle winding.  The conversion the claim
cites (`FVoxelMeshGenerator::AddQuad`, called by part_003's
`ConvertQuadsToMesh`) emits local corner indices `(0,1,2)`, `(0,2,3)`
for EVERY face direction — `Top` (+Z) quads included, contrary to the
spec's inverse-winding rule; the inverse winding `(0,3,1)`, `(1,3,2)`
for +Z only exists in the second, welded `ConvertQuadsToMesh` variant
(VoxelBlueprintLibrary.cpp:1004-1041), as the second conjunct shows. -/
theorem quad_winding :
    (∀ (quads : List FVoxelGreedyMesher.FGreedyQuad) (vox : Int),
      (FVoxelGreedyMesher.ConvertQuadsToMesh quads vox).Triangles =
        (List.range quads.length).flatMap fun i => triBlock (4 * (i : Int))) ∧
    (∀ (q : FVoxelGreedyMesher.FGreedyQuad) (vox : Int),
      0 < vox → 0 < q.Size.X → 0 < q.Size.Y →
      (FVoxelGreedyMesher.ConvertQuadsToMeshWelded [q] vox).Triangles =
        if q.Face = EVoxelFace.Top then [0, 3, 1, 1, 3, 2]
        else [0, 1, 2, 0, 2, 3]) := by
  constructor
  · intro quads vox
    have h2 := ((FVoxelGreedyMesher.convert_go vox quads) emptyMeshData).2
    simp only [emptyMeshData, List.length_nil, Nat.cast_zero, zero_add,
      List.nil_append] at h2
    exact h2
  · exact fun q vox hv hx hy =>
      FVoxelGreedyMesher.welded_single_quad q vox hv hx hy

/-- Witness for C3's amended theorem at a concrete input: a single
`Top` quad gets uniform winding from the part_003 conversion and the
inverse winding from the welded variant. -/
theorem quad_winding_witness :
    (FVoxelGreedyMesher.ConvertQuadsToMesh [topQuad1] 25).Triangles =
      [0, 1, 2, 0, 2, 3] ∧
    (FVoxelGreedyMesher.ConvertQuadsToMeshWelded [topQuad1] 25).Triangles =
      [0, 3, 1, 1, 3, 2] := by
  constructor
  · have h := quad_winding.1 [topQuad1] 25
    simpa [triBlock] using h
  · have h := quad_winding.2 topQuad1 25 (by decide) (by decide) (by decide)
    simpa [topQuad1] using h

/-- Counterexample to C3 as stated: in the cited conversion a `Top`
(+Z) quad is emitted with the SAME `(0,1,2)`, `(0,2,3)` winding as
every other face, not the inverse `(0,3,1)`, `(1,3,2)` the spec
requires for +Z. -/
theorem top_winding_counterexample :
    topQuad1.Face = EVoxelFace.Top ∧
    (FVoxelGreedyMesher.ConvertQuadsToMesh [topQuad1] 25).Triangles =
      [0, 1, 2, 0, 2, 3] ∧
    ([0, 1, 2, 0, 2, 3] : List Int) ≠ [0, 3, 1, 1, 3, 2] := by
  refine ⟨rfl, by decide, by decide⟩

/-- C2 (amended): vertex welding holds of the WELDED
`ConvertQuadsToMesh` variant (VoxelBlueprintLibrary.cpp), whose
`VertexMap` keys on quantized position alone: no two distinct vertex
records of its output share a quantized position, hence none share the
spec's `(quantized_pos, face_normal)` key either (second conjunct).
The part_003 conversion the claim also cites performs no welding at
all and violates the property (see the counterexample). -/
theorem welded_distinct_vertex_keys :
    ∀ (quads : List FVoxelGreedyMesher.FGreedyQuad) (vox : Int),
      ((FVoxelGreedyMesher.ConvertQuadsToMeshWelded quads vox).Vertices.Pairwise
        fun a b => FVoxelGreedyMesher.vertexKey a ≠
          FVoxelGreedyMesher.vertexKey b) ∧
      (∀ i j : Nat,
        i < (FVoxelGreedyMesher.ConvertQuadsToMeshWelded quads
          vox).Vertices.length →
        j < (FVoxelGreedyMesher.ConvertQuadsToMeshWelded quads
          vox).Vertices.length →
        i ≠ j →
        (FVoxelGreedyMesher.vertexKey
            ((FVoxelGreedyMesher.ConvertQuadsToMeshWelded quads
              vox).Vertices.getD i ⟨0, 0, 0⟩),
          (FVoxelGreedyMesher.ConvertQuadsToMeshWelded quads
            vox).Normals.getD i ⟨0, 0, 0⟩) ≠
        (FVoxelGreedyMesher.vertexKey
            ((FVoxelGreedyMesher.ConvertQuadsToMeshWelded quads
              vox).Vertices.getD j ⟨0, 0, 0⟩),
          (FVoxelGreedyMesher.ConvertQuadsToMeshWelded quads
            vox).Normals.getD j ⟨0, 0, 0⟩)) := by
  intro quads vox
  have hinv := FVoxelGreedyMesher.welded_fold_inv vox quads
    (emptyMeshData, [])
    ⟨List.Pairwise.nil, fun v hv => absurd hv (List.not_mem_nil v)⟩
  have hpw : (FVoxelGreedyMesher.ConvertQuadsToMeshWelded quads
      vox).Vertices.Pairwise
      (fun a b => FVoxelGreedyMesher.vertexKey a ≠
        FVoxelGreedyMesher.vertexKey b) := hinv.1
  refine ⟨hpw, ?_⟩
  intro i j hi hj hij heq
  have hkey := congrArg Prod.fst heq
  simp only [] at hkey
  rcases Nat.lt_or_ge i j with hlt | hge
  · have hne := (List.pairwise_iff_getElem.mp hpw) i j hi hj hlt
    rw [List.getD_eq_getElem _ _ hi, List.getD_eq_getElem _ _ hj] at hkey
    exact hne hkey
  · have hji : j < i := by omega
    have hne := (List.pairwise_iff_getElem.mp hpw) j i hj hi hji
    rw [List.getD_eq_getElem _ _ hi, List.getD_eq_getElem _ _ hj] at hkey
    exact hne hkey.symm

/-- Witness for C2's amended theorem at a concrete input: the first two
output vertices of the welded conversion of the two Back quads have
distinct `(quantized_pos, normal)` records. -/
theorem welded_distinct_vertex_keys_witness :
    (FVoxelGreedyMesher.vertexKey
        ((FVoxelGreedyMesher.ConvertQuadsToMeshWelded backPairQuads
          25).Vertices.getD 0 ⟨0, 0, 0⟩),
      (FVoxelGreedyMesher.ConvertQuadsToMeshWelded backPairQuads
        25).Normals.getD 0 ⟨0, 0, 0⟩) ≠
    (FVoxelGreedyMesher.vertexKey
        ((FVoxelGreedyMesher.ConvertQuadsToMeshWelded backPairQuads
          25).Vertices.getD 1 ⟨0, 0, 0⟩),
      (FVoxelGreedyMesher.ConvertQuadsToMeshWelded backPairQuads
        25).Normals.getD 1 ⟨0, 0, 0⟩) :=
  (welded_distinct_vertex_keys backPairQuads 25).2 0 1 (by decide) (by decide)
    (by decide)

instance : Sub FIntVector := ⟨fun a b => ⟨a.X - b.X, a.Y - b.Y, a.Z - b.Z⟩⟩

/-- A 1×1×1 chunk holding `Stone`. -/
def chunk1 : FVoxelChunkData :=
  ⟨[⟨EVoxelMaterial.Stone⟩], ⟨1, 1, 1⟩, ⟨0, 0, 0⟩, false⟩

/-- The six greedy quads of `chunk1`, in face-id order. -/
def sixQuads1 : List FVoxelGreedyMesher.FGreedyQuad :=
  [⟨⟨0, 0, 0⟩, ⟨1, 1, 1⟩, EVoxelFace.Front, EVoxelMaterial.Stone⟩,
    ⟨⟨0, 0, 0⟩, ⟨1, 1, 1⟩, EVoxelFace.Back, EVoxelMaterial.Stone⟩,
    ⟨⟨0, 0, 0⟩, ⟨1, 1, 1⟩, EVoxelFace.Right, EVoxelMaterial.Stone⟩,
    ⟨⟨0, 0, 0⟩, ⟨1, 1, 1⟩, EVoxelFace.Left, EVoxelMaterial.Stone⟩,
    ⟨⟨0, 0, 0⟩, ⟨1, 1, 1⟩, EVoxelFace.Top, EVoxelMaterial.Stone⟩,
    ⟨⟨0, 0, 0⟩, ⟨1, 1, 1⟩, EVoxelFace.Bottom, EVoxelMaterial.Stone⟩]

/-- The 3×3 integer determinant of three column vectors. -/
def det3 (a b c : FIntVector) : Int :=
  a.X * (b.Y * c.Z - b.Z * c.Y) - a.Y * (b.X * c.Z - b.Z * c.X) +
    a.Z * (b.X * c.Y - b.Y * c.X)

/-- The plane of the triangle `(p1, p2, p3)` contains the half-integral
point `Q/2`: every coordinate is doubled (`Q` is given pre-doubled) so
face-centres stay integral. -/
def planeContains2 (p1 p2 p3 Q : FIntVector) : Prop :=
  det3 (FIntVector.scale 2 p2 - FIntVector.scale 2 p1)
    (FIntVector.scale 2 p3 - FIntVector.scale 2 p1)
    (Q - FIntVector.scale 2 p1) = 0

instance (p1 p2 p3 Q : FIntVector) : Decidable (planeContains2 p1 p2 p3 Q) := by
  unfold planeContains2
  infer_instance

/-- The triangle index list grouped in threes. -/
def triples : List Int → List (Int × Int × Int)
  | a :: b :: c :: r => (a, b, c) :: triples r
  | _ => []

/-- How many triangles of a mesh have a plane containing the
(pre-doubled) point `Q`. -/
def trianglePlaneCount (md : FVoxelMeshData) (Q : FIntVector) : Nat :=
  (triples md.Triangles).countP fun t =>
    decide (planeContains2 (md.Vertices.getD t.1.toNat ⟨0, 0, 0⟩)
      (md.Vertices.getD t.2.1.toNat ⟨0, 0, 0⟩)
      (md.Vertices.getD t.2.2.toNat ⟨0, 0, 0⟩) Q)

/-- Counterexample to C1 as stated: the spec asks for EXACTLY ONE
greedy triangle whose plane contains each visible face-centre.  On the
1×1×1 Stone chunk the +X face of voxel `(0,0,0)` is §4.2-visible and
its face-centre (doubled coordinates `(50,25,25)`) lies in the planes
of exactly TWO triangles of the converted greedy mesh — the quad's two
coplanar triangles — not one.  (The corrected per-quad count is the
amended C1 theorem.) -/
theorem one_triangle_per_point_counterexample :
    FVoxelGreedyMesher.GenerateGreedyMesh chunk1 = sixQuads1 ∧
    FVoxelGreedyMesher.IsFaceVisible chunk1 0 0 0 EVoxelFace.Right = true ∧
    trianglePlaneCount (FVoxelGreedyMesher.ConvertQuadsToMesh sixQuads1 25)
      ⟨50, 25, 25⟩ = 2 ∧
    (2 : Nat) ≠ 1 := by
  refine ⟨?_, by decide, by decide, by decide⟩
  have hall : ∀ x y z : Int, chunk1.InRange x y z →
      chunk1.GetVoxel x y z = ⟨EVoxelMaterial.Stone⟩ :=
    getVoxel_replicate ⟨EVoxelMaterial.Stone⟩ 1 ⟨1, 1, 1⟩ ⟨0, 0, 0⟩ false
      (by decide)
  have h := generateGreedyMesh_all_solid chunk1 EVoxelMaterial.Stone
    (by decide) hall (by decide) (by decide) (by decide)
  simpa [chunk1, sixQuads1] using h

/-- Counterexample to C2 as stated: the cited part_003
`ConvertQuadsToMesh` performs no welding, so converting the two
Back-face quads of the 2×1×1 Stone|Grass chunk yields the distinct
vertex records 0 and 5 — both at world position `(25,0,0)` with normal
`(0,-1,0)` — sharing one `(quantized_pos, face_normal)` welding key. -/
theorem convert_duplicate_vertex_key_counterexample :
    (0 : Nat) ≠ 5 ∧
    5 < (FVoxelGreedyMesher.ConvertQuadsToMesh backPairQuads
      25).Vertices.length ∧
    (FVoxelGreedyMesher.vertexKey
        ((FVoxelGreedyMesher.ConvertQuadsToMesh backPairQuads
          25).Vertices.getD 0 ⟨0, 0, 0⟩),
      (FVoxelGreedyMesher.ConvertQuadsToMesh backPairQuads
        25).Normals.getD 0 ⟨0, 0, 0⟩) =
    (FVoxelGreedyMesher.vertexKey
        ((FVoxelGreedyMesher.ConvertQuadsToMesh backPairQuads
          25).Vertices.getD 5 ⟨0, 0, 0⟩),
      (FVoxelGreedyMesher.ConvertQuadsToMesh backPairQuads
        25).Normals.getD 5 ⟨0, 0, 0⟩) := by
  refine ⟨by decide, by decide, by decide⟩

/-! ### World streaming, the task dispatcher, and mesh application

`AVoxelWorld` (VoxelWorld.cpp) is modelled by the state its claimed
behaviours read and write: the key set of the `ActiveChunks` map, the
FIFO `ChunkTaskQueue` (front first) and the `bFlatWorldMode` flag.
Actor spawning and pooling always succeed in the model (their failure
branches are engine wiring); the generation priority is passed in where
the source computes it from the player distance
(`CalculateChunkPriority`). -/

/-- `EVoxelChunkState` (VoxelChunk.h:33-41), ids `0..5` in constructor
order. -/
inductive EVoxelChunkState : Type
  | Uninitialized
  | Generating
  | Generated
  | Meshing
  | Ready
  | Unloading
deriving DecidableEq, Repr

/-- `FVoxelChunkTask` (VoxelWorld.h): queued generation work. -/
structure FVoxelChunkTask where
  ChunkPosition : FIntVector
  Priority : Int
  bIsRegeneration : Bool
deriving DecidableEq, Repr

/-- The modelled `AVoxelWorld` state. -/
structure AVoxelWorld where
  ActiveChunks : List FIntVector
  ChunkTaskQueue : List FVoxelChunkTask
  bFlatWorldMode : Bool
deriving DecidableEq, Repr

/-- `AVoxelWorld::QueueChunkGeneration` (VoxelWorld.cpp:521-530): a
plain FIFO `Enqueue` of the task — the priority is stored but induces
no ordering. -/
def QueueChunkGeneration (w : AVoxelWorld) (p : FIntVector) (prio : Int)
    (regen : Bool) : AVoxelWorld :=
  { w with ChunkTaskQueue := w.ChunkTaskQueue ++ [⟨p, prio, regen⟩] }

/-- `AVoxelWorld::GetOrCreateChunk` (VoxelWorld.cpp:104-168): return
the existing chunk, otherwise create one, register it in
`ActiveChunks` and queue its generation.  The function body never reads
`bFlatWorldMode` — there is no `Z ≠ 0` rejection. -/
def GetOrCreateChunk (w : AVoxelWorld) (p : FIntVector) (prio : Int) :
    AVoxelWorld :=
  if w.ActiveChunks.contains p then w
  else QueueChunkGeneration { w with ActiveChunks := w.ActiveChunks ++ [p] }
    p prio false

/-- The inclusive integer range `[lo, hi]`. -/
def rangeIncl (lo hi : Int) : List Int :=
  (List.range (hi - lo + 1).toNat).map fun i => lo + (i : Int)

/-- The candidate chunk positions each `AVoxelWorld::UpdateChunks` pass
scans (VoxelWorld.cpp:356-370): `X, Y ∈ [-ViewDistance, ViewDistance]`
and — unconditionally, `bFlatWorldMode` notwithstanding —
`Z ∈ [-2, 2]`. -/
def updateChunkCandidates (playerChunk : FIntVector) (viewDistance : Int) :
    List FIntVector :=
  (rangeIncl (-viewDistance) viewDistance).flatMap fun X =>
    (rangeIncl (-viewDistance) viewDistance).flatMap fun Y =>
      (rangeIncl (-2) 2).map fun Z => playerChunk + ⟨X, Y, Z⟩

/-- C6 (code bug exhibit): with `bFlatWorldMode = true`,
`GetOrCreateChunk` at `(0,0,1)` — `z ≠ 0` — still creates and queues
the chunk, and the `UpdateChunks` required set around the origin
contains `(0,0,1)`: the flag is never consulted (the flat-world checks
exist only in the newer `VoxelWorld.cpp` embedded in
`Docs/Development Roadmap.md`, not in the compiled source). -/
theorem flat_world_mode_ignored :
    (GetOrCreateChunk ⟨[], [], true⟩ ⟨0, 0, 1⟩ 0).ActiveChunks =
      [⟨0, 0, 1⟩] ∧
    (GetOrCreateChunk ⟨[], [], true⟩ ⟨0, 0, 1⟩ 0).ChunkTaskQueue =
      [⟨⟨0, 0, 1⟩, 0, false⟩] ∧
    (⟨0, 0, 1⟩ : FIntVector) ∈ updateChunkCandidates ⟨0, 0, 0⟩ 1 ∧
    (⟨0, 0, 1⟩ : FIntVector).Z ≠ 0 := by
  refine ⟨by decide, by decide, ?_, by decide⟩
  decide

/-- Whether `ProcessChunkTasks` dispatches a dequeued task
(VoxelWorld.cpp:411-424): the chunk must still exist and either not be
`Ready` or be a regeneration. -/
def needsDispatch (chunks : List (FIntVector × EVoxelChunkState))
    (t : FVoxelChunkTask) : Bool :=
  match chunks.lookup t.ChunkPosition with
  | some st => decide (st ≠ EVoxelChunkState.Ready) || t.bIsRegeneration
  | none => false

/-- The loop of `AVoxelWorld::ProcessChunkTasks`
(VoxelWorld.cpp:391-430) in state-passing form: `chunks` is the
`ActiveChunks` state map, `n` the remaining per-frame budget
(`MaxChunksPerFrame = 5` at the call site), `active` the
`ActiveGenerations` counter, and the result is `(the dispatched tasks
in dispatch order, the remaining queue, the final counter)`.  The
dequeue is `TQueue::Dequeue` — strict FIFO; `Priority` is never
read. -/
def ProcessChunkTasks (chunks : List (FIntVector × EVoxelChunkState))
    (maxConc : Int) :
    Nat → Int → List FVoxelChunkTask → List FVoxelChunkTask →
      List FVoxelChunkTask × List FVoxelChunkTask × Int
  | 0, active, queue, acc => (acc, queue, active)
  | n + 1, active, queue, acc =>
    if active < maxConc then
      match queue with
      | [] => (acc, [], active)
      | t :: rest =>
        if needsDispatch chunks t then
          ProcessChunkTasks chunks maxConc n (active + 1) rest (acc ++ [t])
        else
          ProcessChunkTasks chunks maxConc n active rest acc
    else (acc, queue, active)

/-- C7 (amended): the dispatcher is strict-FIFO, not priority-ordered:
whenever the frame budget covers the queue and the concurrency cap is
not reached, every queued task is examined in INSERTION order and
exactly those still needing meshing (state ≠ `Ready` or regeneration)
are dispatched, in insertion order — the stored `Priority` values never
influence the result.  (The ≤ 5 per frame and `in_flight` guards are
the `n`/`maxConc` bounds of the loop.) -/
theorem processChunkTasks_fifo (chunks : List (FIntVector × EVoxelChunkState))
    (maxConc : Int) :
    ∀ (queue : List FVoxelChunkTask) (n : Nat) (active : Int)
      (acc : List FVoxelChunkTask),
      queue.length ≤ n →
      active + (queue.countP (needsDispatch chunks) : Int) < maxConc →
      ProcessChunkTasks chunks maxConc n active queue acc =
        (acc ++ queue.filter (needsDispatch chunks), [],
          active + (queue.countP (needsDispatch chunks) : Int)) := by
  intro queue
  induction queue with
  | nil =>
    intro n active acc hb hc
    cases n with
    | zero => simp [ProcessChunkTasks]
    | succ k =>
      rw [ProcessChunkTasks, if_pos (by simpa using hc)]
      simp
  | cons t rest ih =>
    intro n active acc hb hc
    have hcount : (0 : Int) ≤ (rest.countP (needsDispatch chunks) : Int) := by
      positivity
    cases n with
    | zero => simp at hb
    | succ k =>
      have hlt : active < maxConc := by
        rw [List.countP_cons] at hc
        push_cast at hc
        omega
      rw [ProcessChunkTasks, if_pos hlt]
      by_cases hd : needsDispatch chunks t = true
      · rw [if_pos hd]
        rw [ih k (active + 1) (acc ++ [t]) (by simpa using hb)
          (by rw [List.countP_cons, if_pos hd] at hc; push_cast at hc ⊢; omega)]
        rw [List.filter_cons_of_pos hd, List.countP_cons, if_pos hd]
        refine Prod.ext ?_ (Prod.ext rfl ?_)
        · simp
        · push_cast
          ring
      · rw [if_neg hd]
        rw [ih k active acc (by simpa using hb)
          (by rw [List.countP_cons, if_neg hd] at hc; push_cast at hc ⊢; omega)]
        rw [List.filter_cons_of_neg (by simpa using hd), List.countP_cons,
          if_neg hd]
        simp

/-- The chunk-state map and queue of the C7 scenario: two `Generated`
chunks; the first-queued task carries the WORSE (higher-valued)
priority. -/
def chunksC7 : List (FIntVector × EVoxelChunkState) :=
  [(⟨1, 0, 0⟩, EVoxelChunkState.Generated),
    (⟨2, 0, 0⟩, EVoxelChunkState.Generated)]

/-- Witness for C7's amended theorem at a concrete input: both queued
tasks are dispatched, in FIFO order. -/
theorem processChunkTasks_fifo_witness :
    ProcessChunkTasks chunksC7 4 5 0
      [⟨⟨1, 0, 0⟩, 5, false⟩, ⟨⟨2, 0, 0⟩, 0, false⟩] [] =
      ([⟨⟨1, 0, 0⟩, 5, false⟩, ⟨⟨2, 0, 0⟩, 0, false⟩], [], 2) := by
  have h := processChunkTasks_fifo chunksC7 4
    [⟨⟨1, 0, 0⟩, 5, false⟩, ⟨⟨2, 0, 0⟩, 0, false⟩] 5 0 [] (by decide)
    (by decide)
  simpa using h

/-- Counterexample to C7 as stated: with a priority-0 (best) task
queued BEHIND a priority-5 task, the dispatcher pops and dispatches the
priority-5 task first — dequeue order is insertion order, not
highest-priority-first. -/
theorem priority_dispatch_counterexample :
    (ProcessChunkTasks chunksC7 4 5 0
        [⟨⟨1, 0, 0⟩, 5, false⟩, ⟨⟨2, 0, 0⟩, 0, false⟩] []).1 =
      [⟨⟨1, 0, 0⟩, 5, false⟩, ⟨⟨2, 0, 0⟩, 0, false⟩] ∧
    ((⟨⟨1, 0, 0⟩, 5, false⟩ : FVoxelChunkTask).Priority >
      (⟨⟨2, 0, 0⟩, 0, false⟩ : FVoxelChunkTask).Priority) := by
  refine ⟨by decide, by decide⟩

/-- The modelled `UVoxelChunkComponent` state that
`ApplyMeshData` reads and writes: the pending `MeshData`, the chunk
state, the data dirty flag, and the `ProceduralMesh` contents
(`AppliedMesh`). -/
structure UVoxelChunkComponent where
  MeshData : FVoxelMeshData
  ChunkState : EVoxelChunkState
  bIsDirty : Bool
  AppliedMesh : Option FVoxelMeshData
deriving DecidableEq, Repr

/-- The validation loop of `UVoxelChunkComponent::ApplyMeshData`
(VoxelChunk.cpp:377-387): some triangle index is `≥ Vertices.Num()` or
`< 0`. -/
def hasInvalidIndices (md : FVoxelMeshData) : Bool :=
  md.Triangles.any fun t =>
    decide ((md.Vertices.length : Int) ≤ t) || decide (t < 0)

/-- `UVoxelChunkComponent::ApplyMeshData` (VoxelChunk.cpp:362-450), the
`ProceduralMesh`-present path: on invalid indices it logs an error and
returns early with `ChunkState = Ready` and the dirty flag cleared,
never applying the mesh; otherwise it applies the mesh and likewise
ends `Ready` and clean. -/
def ApplyMeshData (comp : UVoxelChunkComponent) : UVoxelChunkComponent :=
  if hasInvalidIndices comp.MeshData then
    { comp with ChunkState := EVoxelChunkState.Ready, bIsDirty := false }
  else
    { comp with
        AppliedMesh := some comp.MeshData
        ChunkState := EVoxelChunkState.Ready
        bIsDirty := false }

/-- C8 (amended): when validation fails the invalid mesh is indeed
discarded (the applied mesh is untouched) and the error is logged, but
the chunk is set to `Ready` with `bIsDirty = false` — it does NOT
return to `Generated`, and no retry is scheduled. -/
theorem applyMeshData_invalid (comp : UVoxelChunkComponent)
    (h : hasInvalidIndices comp.MeshData = true) :
    (ApplyMeshData comp).AppliedMesh = comp.AppliedMesh ∧
    (ApplyMeshData comp).ChunkState = EVoxelChunkState.Ready ∧
    (ApplyMeshData comp).bIsDirty = false := by
  unfold ApplyMeshData
  rw [if_pos h]
  exact ⟨rfl, rfl, rfl⟩

/-- A component holding an invalid mesh: one triangle index `0` with no
vertices. -/
def invalidComp : UVoxelChunkComponent :=
  ⟨⟨[], [], [0], []⟩, EVoxelChunkState.Meshing, true, none⟩

/-- Witness for C8's amended theorem at a concrete input. -/
theorem applyMeshData_invalid_witness :
    (ApplyMeshData invalidComp).AppliedMesh = invalidComp.AppliedMesh ∧
    (ApplyMeshData invalidComp).ChunkState = EVoxelChunkState.Ready ∧
    (ApplyMeshData invalidComp).bIsDirty = false :=
  applyMeshData_invalid invalidComp (by decide)

/-- Counterexample to C8 as stated: after a validation failure the
chunk's state is `Ready`, not the `Generated` the spec promises (and
the dirty flag is cleared, so no "next dirty flip" retry is pending). -/
theorem meshValidation_ready_counterexample :
    hasInvalidIndices invalidComp.MeshData = true ∧
    (ApplyMeshData invalidComp).ChunkState = EVoxelChunkState.Ready ∧
    EVoxelChunkState.Ready ≠ EVoxelChunkState.Generated ∧
    (ApplyMeshData invalidComp).bIsDirty = false := by
  refine ⟨by decide, by decide, by decide, by decide⟩

/-! ### Seed variations (VoxelWorldTemplate.cpp)

Float parameters and world coordinates are carried as exact rationals
(`ℚ`).  `FRandomStream` is engine code not present in this repository;
it is modelled by its linear-congruential generator
(`Seed ← Seed * 196314165 + 907633515` on `uint32`,
`GetFraction = (Seed >>> 9) / 2²³`,
`RandRange(a,b) = a + min ⌊GetFraction·(b-a+1)⌋ (b-a)` for nonempty
ranges) — the determinism theorem only needs it to be a function of the
stream state.  `GetTypeHash(FIntVector)` is likewise engine code and
enters only through the explicit `hashPos` parameter.  Float `sqrt`
comparisons are replaced by the equivalent squared-distance
comparisons. -/

/-- The `FRandomStream` seed mutation on `uint32`. -/
def mutateSeed (s : Nat) : Nat := (s * 196314165 + 907633515) % 2 ^ 32

/-- `FRandomStream::GetFraction`: mutate, then read the top 23 bits as
a fraction in `[0, 1)`. -/
def frand (s : Nat) : ℚ × Nat :=
  let s' := mutateSeed s
  (((s' >>> 9 : Nat) : ℚ) / 2 ^ 23, s')

/-- `FRandomStream::RandRange` on `int32` (no draw on an empty
range). -/
def randRange (s : Nat) (lo hi : Int) : Int × Nat :=
  if 0 < hi - lo + 1 then
    let r := frand s
    (lo + min (Int.floor (r.1 * ((hi - lo + 1 : Int) : ℚ))) (hi - lo), r.2)
  else (lo, s)

/-- `FVoxelLandmark` (VoxelWorldTemplate.h): the fields
`ApplySeedVariations` reads. -/
structure FVoxelLandmark where
  WorldPosition : ℚ × ℚ × ℚ
  ProtectionRadius : ℚ
deriving DecidableEq, Repr

/-- `FVoxelVariationParams` (VoxelWorldTemplate.h:74-99). -/
structure FVoxelVariationParams where
  GrassVariation : ℚ
  FlowerDensity : ℚ
  TreeVariation : ℚ
  TerrainNoiseScale : ℚ
  TerrainNoiseHeight : ℚ
  bAllowPathVariation : Bool
  bAllowWaterVariation : Bool
deriving DecidableEq, Repr

/-- `UVoxelWorldTemplate` (VoxelWorldTemplate.h:103-148): the fields
the seed-variation path reads, plus `TemplateName` as representative
metadata that the purity theorem shows the function never reads
(`Description`, `CreationDate`, bounds and the compressed chunk data
are further such fields, omitted). -/
structure UVoxelWorldTemplate where
  TemplateName : String
  Landmarks : List FVoxelLandmark
  VariationParams : FVoxelVariationParams
  bAllowSeedVariations : Bool

/-- Squared distance of two rational points
(`FVector::DistSquared`). -/
def distSq (a b : ℚ × ℚ × ℚ) : ℚ :=
  (a.1 - b.1) ^ 2 + (a.2.1 - b.2.1) ^ 2 + (a.2.2 - b.2.2) ^ 2

/-- `UVoxelWorldTemplate::GetLandmarksInRadius`
(VoxelWorldTemplate.cpp:42-57): filter by `DistSq ≤ Radius²` (the
source already compares squares). -/
def GetLandmarksInRadius (lms : List FVoxelLandmark) (pos : ℚ × ℚ × ℚ)
    (radius : ℚ) : List FVoxelLandmark :=
  lms.filter fun L => decide (distSq L.WorldPosition pos ≤ radius * radius)

/-- `UVoxelTemplateUtility::ApplyTerrainNoise`
(VoxelWorldTemplate.cpp:429-445): a documented placeholder — on both
branches it changes no voxel and draws nothing. -/
def ApplyTerrainNoise (d : FVoxelChunkData) (_params : FVoxelVariationParams)
    (s : Nat) : FVoxelChunkData × Nat := (d, s)

/-- One `(X, Y)` column of `ApplyGrassVariation`
(VoxelWorldTemplate.cpp:303-333): find the topmost `Grass` voxel; if
air sits above it, draw once and plant `Leaves` when the draw is under
`FlowerDensity`. -/
def grassCellStep (params : FVoxelVariationParams)
    (st : FVoxelChunkData × Nat) (X Y : Int) : FVoxelChunkData × Nat :=
  let d := st.1
  let SZ := d.ChunkSize.Z
  match (List.range SZ.toNat).reverse.find? (fun z =>
      decide ((d.GetVoxel X Y (z : Int)).Material = EVoxelMaterial.Grass)) with
  | none => st
  | some z =>
    if (z : Int) < SZ - 1 ∧ (d.GetVoxel X Y ((z : Int) + 1)).IsAir = true then
      let r := frand st.2
      if r.1 < params.FlowerDensity then
        (d.SetVoxel X Y ((z : Int) + 1) ⟨EVoxelMaterial.Leaves⟩, r.2)
      else (d, r.2)
    else st

/-- `UVoxelTemplateUtility::ApplyGrassVariation`
(VoxelWorldTemplate.cpp:294-334): `Y` outer, `X` inner. -/
def ApplyGrassVariation (d : FVoxelChunkData)
    (params : FVoxelVariationParams) (s : Nat) : FVoxelChunkData × Nat :=
  if params.GrassVariation ≤ 0 then (d, s)
  else
    (FVoxelGreedyMesher.scanCells d.ChunkSize.X.toNat
      d.ChunkSize.Y.toNat).foldl
      (fun st c => grassCellStep params st (c.1 : Int) (c.2 : Int)) (d, s)

/-- One tree attempt of `ApplyTreeVariation`
(VoxelWorldTemplate.cpp:336-427): two coordinate draws, landmark
protection (`Dist < R` becomes `0 < R ∧ DistSq < R²`, equivalent since
a distance is nonnegative), ground scan, trunk-height draw, trunk and
leaf-sphere placement (`Dist ≤ 2` becomes `ΔX²+ΔY²+ΔZ² ≤ 4`). -/
def treeAttemptStep (_params : FVoxelVariationParams)
    (lms : List FVoxelLandmark) (chunkPos : FIntVector)
    (st : FVoxelChunkData × Nat) : FVoxelChunkData × Nat :=
  let d := st.1
  let SX := d.ChunkSize.X
  let SY := d.ChunkSize.Y
  let SZ := d.ChunkSize.Z
  let rX := randRange st.2 3 (SX - 4)
  let rY := randRange rX.2 3 (SY - 4)
  let X := rX.1
  let Y := rY.1
  let worldPos : ℚ × ℚ × ℚ :=
    (((chunkPos.X * SX * 25 + X * 25 : Int) : ℚ),
      ((chunkPos.Y * SX * 25 + Y * 25 : Int) : ℚ),
      ((chunkPos.Z * SX * 25 : Int) : ℚ))
  let bProtected := lms.any fun L =>
    decide (0 < L.ProtectionRadius ∧
      distSq worldPos L.WorldPosition <
        L.ProtectionRadius * L.ProtectionRadius)
  if bProtected then (d, rY.2)
  else
    match (List.range SZ.toNat).reverse.find? (fun z =>
        decide ((d.GetVoxel X Y (z : Int)).Material = EVoxelMaterial.Grass ∨
          (d.GetVoxel X Y (z : Int)).Material = EVoxelMaterial.Dirt)) with
    | none => (d, rY.2)
    | some gz =>
      if SZ - 8 < (gz : Int) then (d, rY.2)
      else
        let rT := randRange rY.2 4 6
        let d1 := (rangeIncl 1 rT.1).foldl
          (fun dd z => dd.SetVoxel X Y ((gz : Int) + z)
            ⟨EVoxelMaterial.Wood⟩) d
        let offs := rangeIncl (-2) 2
        let d2 := offs.foldl (fun dd dx =>
          offs.foldl (fun dd dy =>
            offs.foldl (fun dd dz =>
              if (0 ≤ X + dx ∧ X + dx < SX ∧ 0 ≤ Y + dy ∧ Y + dy < SY ∧
                    0 ≤ (gz : Int) + rT.1 + dz ∧ (gz : Int) + rT.1 + dz < SZ) ∧
                  dx * dx + dy * dy + dz * dz ≤ 4 ∧
                  (dd.GetVoxel (X + dx) (Y + dy)
                    ((gz : Int) + rT.1 + dz)).IsAir = true then
                dd.SetVoxel (X + dx) (Y + dy) ((gz : Int) + rT.1 + dz)
                  ⟨EVoxelMaterial.Leaves⟩
              else dd) dd) dd) d1
        (d2, rT.2)

/-- `UVoxelTemplateUtility::ApplyTreeVariation`
(VoxelWorldTemplate.cpp:336-427): `RoundToInt(TreeVariation * 5)`
attempts. -/
def ApplyTreeVariation (d : FVoxelChunkData)
    (params : FVoxelVariationParams) (s : Nat)
    (lms : List FVoxelLandmark) (chunkPos : FIntVector) :
    FVoxelChunkData × Nat :=
  if params.TreeVariation ≤ 0 then (d, s)
  else
    (List.range (Int.floor (params.TreeVariation * 5 + 1 / 2)).toNat).foldl
      (fun st _ => treeAttemptStep params lms chunkPos st) (d, s)

/-- `UVoxelTemplateUtility::ApplySeedVariations`
(VoxelWorldTemplate.cpp:273-292): RNG seeded with
`Seed ^ GetTypeHash(ChunkPosition)`, landmarks gathered in radius
`ChunkSize.X * 25 * 1.5`, then the three overlays in the fixed order
terrain noise, grass/flowers, trees, threading the stream state. -/
def ApplySeedVariations (hashPos : FIntVector → Nat)
    (t : UVoxelWorldTemplate) (seed : Nat) (chunkPos : FIntVector)
    (d : FVoxelChunkData) : FVoxelChunkData :=
  if ¬ t.bAllowSeedVariations then d
  else
    let s0 := (seed ^^^ hashPos chunkPos) % 2 ^ 32
    let params := t.VariationParams
    let chunkWorldPos : ℚ × ℚ × ℚ :=
      (((chunkPos.X * d.ChunkSize.X * 25 : Int) : ℚ),
        ((chunkPos.Y * d.ChunkSize.X * 25 : Int) : ℚ),
        ((chunkPos.Z * d.ChunkSize.X * 25 : Int) : ℚ))
    let radius : ℚ := ((d.ChunkSize.X * 25 : Int) : ℚ) * 3 / 2
    let nearby := GetLandmarksInRadius t.Landmarks chunkWorldPos radius
    let r1 := ApplyTerrainNoise d params s0
    let r2 := ApplyGrassVariation r1.1 params r1.2
    (ApplyTreeVariation r2.1 params r2.2 nearby chunkPos).1

/-- C9: seed-variation determinism.  `ApplySeedVariations` is a pure
function of `(hash(chunk_pos), allow-flag, variation params, landmarks,
seed, chunk position, voxel data)`: any two invocations agreeing on
those inputs — in particular two invocations with identical inputs, and
invocations on templates differing only in metadata such as
`TemplateName` — produce identical (byte-identical) voxel arrays.  The
per-chunk RNG is seeded with `seed ^^^ hash(chunk_pos)` and the
overlays run in the fixed order terrain noise, grass/flower, trees (see
`ApplySeedVariations`). -/
theorem applySeedVariations_deterministic
    (hash1 hash2 : FIntVector → Nat) (t1 t2 : UVoxelWorldTemplate)
    (seed : Nat) (pos : FIntVector) (d : FVoxelChunkData)
    (hh : hash1 pos = hash2 pos)
    (hallow : t1.bAllowSeedVariations = t2.bAllowSeedVariations)
    (hparams : t1.VariationParams = t2.VariationParams)
    (hlm : t1.Landmarks = t2.Landmarks) :
    ApplySeedVariations hash1 t1 seed pos d =
      ApplySeedVariations hash2 t2 seed pos d := by
  unfold ApplySeedVariations
  rw [hh, hallow, hparams, hlm]

/-- The default `FVoxelVariationParams` values
(VoxelWorldTemplate.h). -/
def paramsW : FVoxelVariationParams :=
  ⟨3 / 10, 1 / 5, 2 / 5, 10, 25, false, false⟩

/-- Witness for C9 at concrete inputs: two templates that differ only
in their `TemplateName` metadata produce the same varied chunk for the
same seed, position and data. -/
theorem applySeedVariations_deterministic_witness :
    ApplySeedVariations (fun p => p.X.natAbs + 7 * p.Y.natAbs +
        13 * p.Z.natAbs)
      ⟨"Meadow", [], paramsW, true⟩ 42 ⟨1, 2, 3⟩ chunk1 =
    ApplySeedVariations (fun p => p.X.natAbs + 7 * p.Y.natAbs +
        13 * p.Z.natAbs)
      ⟨"MeadowBackup", [], paramsW, true⟩ 42 ⟨1, 2, 3⟩ chunk1 :=
  applySeedVariations_deterministic _ _ _ _ 42 ⟨1, 2, 3⟩ chunk1
    rfl rfl rfl rfl

end Hearthshire
